import Mathlib

/-!
# Coin validator (src/coinvalidator.cpp)

A shallow embedding of `CoinValidator`: the infraction registry
(`infMap`, `infMapLoaded`) and the redemption check `RedeemAddressVerified`.

Conventions of the embedding

* `std::string` is `String`, one `Char` for each `char`; txids passed as `uint256` are
  taken as the string `txId.ToString()` the code uses as map key.
* `CAmount` is `int64_t`: values are `Int`, and `+=` is two's complement
  addition (`wrapCAmount`).
* `double` and the two standard-library conversions the code applies to it
  (stream extraction and `std::fixed` output) are the parameter `DoubleOps`.
* `ExtractDestination` followed by `CBitcoinAddress(..).ToString()` is the
  parameter `resolve : CScript → Option String`.
* `std::map<std::string, std::vector<InfractionData>>` is a key-ordered
  association list; `std::set<std::string>` is a list observed through
  membership only.
* An `assert` that fails ends the call with `Outcome.aborted`.
* The mutex is not modelled: every operation is one atomic step on the state.
-/

namespace CoinValidator

/-! ## Data model -/

/-- The operations on `double` used by the code, supplied by the C++ standard library. -/
structure DoubleOps where
  /-- The carrier standing for `double`. -/
  D : Type
  /-- The literal `0` that initialises `amtd`. -/
  zero : D
  /-- The test `amtd == 0`. -/
  isZero : D → Bool
  /-- The numeric extraction `os >> amtd` applied to the unread characters, once
  leading whitespace is skipped; the value is zero when nothing converts. -/
  numGet : List Char → D
  /-- The text written by `os << std::fixed << amount` in the classic locale. -/
  fixed : D → String
  /-- The literal zero compares equal to zero. -/
  isZero_zero : isZero zero = true

/-- A script (`CScript`), as its bytes. -/
abbrev CScript := List Nat

/-- The record `InfractionData(t, a, amt, amtd)`. -/
structure InfractionData (ops : DoubleOps) where
  txid : String
  address : String
  amount : Int
  amountH : ops.D

/-- The record `RedeemData`: a flagged input or an output of a transaction. -/
structure RedeemData where
  txid : String
  scriptPubKey : CScript
  amount : Int
deriving DecidableEq

/-- The type of `infMap`: entries in key order, each key with its vector of records. -/
abbrev InfMap (ops : DoubleOps) := List (String × List (InfractionData ops))

/-- The validator's mutable members. -/
structure State (ops : DoubleOps) where
  infMap : InfMap ops
  infMapLoaded : Bool

/-- The diagnostic written by `RedeemAddressVerified` through `LogPrintf`, with the
`totalExploited` it reports. -/
inductive LogEvent where
  | failedToRedeem (totalExploited : Int)
deriving DecidableEq

/-- Modelled from the spec: the constructor is declared in coinvalidator.h, which is not
among the sources; the registry starts empty and not loaded. -/
def State.initial (ops : DoubleOps) : State ops :=
  { infMap := [], infMapLoaded := false }

/-! ## `std::map` operations -/

/-- The vector stored under key `k`, if the map has the key (`find`). -/
def mapFind {ops : DoubleOps} (m : InfMap ops) (k : String) : Option (List (InfractionData ops)) :=
  match m with
  | [] => none
  | (k', v) :: rest => if k' = k then some v else mapFind rest k

/-- The call `infMap.count(k)`: 1 when the key is present, else 0. -/
def mapCount {ops : DoubleOps} (m : InfMap ops) (k : String) : Nat :=
  if (mapFind m k).isSome then 1 else 0

/-- The order of `std::less<std::string>` on the characters of two keys: lexicographic. -/
def keyLess : List Char → List Char → Bool
  | [], [] => false
  | [], _ :: _ => true
  | _ :: _, [] => false
  | a :: as, b :: bs =>
    if a.toNat < b.toNat then true
    else if b.toNat < a.toNat then false
    else keyLess as bs

/-- Insertion of a new key at its place in key order. -/
def mapInsert {ops : DoubleOps} (k : String) (v : List (InfractionData ops)) :
    InfMap ops → InfMap ops
  | [] => [(k, v)]
  | (k', v') :: rest =>
    if keyLess k.data k'.data then (k, v) :: (k', v') :: rest
    else (k', v') :: mapInsert k v rest

/-- The access `infMap[k]`: the vector under `k` together with the map afterwards; a missing key
is first inserted with an empty vector. -/
def mapIndex {ops : DoubleOps} (m : InfMap ops) (k : String) :
    List (InfractionData ops) × InfMap ops :=
  match mapFind m k with
  | some v => (v, m)
  | none => ([], mapInsert k [] m)

/-- Update through the reference returned by `infMap[k]`: the vector under `k` is replaced
by `f` of it. -/
def mapModify {ops : DoubleOps} (k : String)
    (f : List (InfractionData ops) → List (InfractionData ops)) : InfMap ops → InfMap ops
  | [] => []
  | (k', v) :: rest => if k' = k then (k', f v) :: rest else (k', v) :: mapModify k f rest

/-! ## `CAmount` arithmetic -/

/-- Reduction of an integer to the `int64_t` range (two's complement). -/
def wrapCAmount (x : Int) : Int := (x + 2 ^ 63) % 2 ^ 64 - 2 ^ 63

/-- The sum `a + b` of two `CAmount`s as stored back in a `CAmount`. -/
def addCAmount (a b : Int) : Int := wrapCAmount (a + b)

/-- A value lies in the `int64_t` range. -/
def inCAmountRange (x : Int) : Prop := -(2 ^ 63) ≤ x ∧ x < 2 ^ 63

instance (x : Int) : Decidable (inCAmountRange x) := by
  unfold inCAmountRange; infer_instance

/-! ## `IsCoinValid` -/

/-- The function `CoinValidator::IsCoinValid`: `infMap.count(txId.ToString()) == 0`. -/
def IsCoinValid {ops : DoubleOps} (s : State ops) (txId : String) : Bool :=
  mapCount s.infMap txId == 0

/-! ## `RedeemAddressVerified` -/

/-- The constant `redeemAddress`. -/
def redeemAddress : String := "B7nPQHKmX8DPkBFaBtaNQWc9SxD3uYpYv6"

/-- The inner loop `for (auto &inf : infs) if (inf.address == explAddr) exploitedAmount += inf.amount`,
from the running value `acc`. -/
def exploitedAmountFrom {ops : DoubleOps} (explAddr : String) :
    List (InfractionData ops) → Int → Int
  | [], acc => acc
  | inf :: infs, acc =>
    exploitedAmountFrom explAddr infs
      (if inf.address = explAddr then addCAmount acc inf.amount else acc)

/-- The loop over `exploited`, from the state of `explSeen`, `totalExploited` and `infMap`
at its head. The first component is `none` when the loop leaves the function with
`return false`, else the final `totalExploited`; the second is `infMap` afterwards. -/
def exploitedLoop {ops : DoubleOps} (resolve : CScript → Option String) :
    List RedeemData → List String → Int → InfMap ops → Option Int × InfMap ops
  | [], _, totalExploited, infMap => (some totalExploited, infMap)
  | expl :: rest, explSeen, totalExploited, infMap =>
    if mapCount infMap expl.txid = 0 then (none, infMap)
    else
      match resolve expl.scriptPubKey with
      | none => (none, infMap)
      | some explAddr =>
        let guid := expl.txid ++ "-" ++ explAddr
        if guid ∈ explSeen then exploitedLoop resolve rest explSeen totalExploited infMap
        else
          let infs := mapIndex infMap expl.txid
          let exploitedAmount := exploitedAmountFrom explAddr infs.1 0
          exploitedLoop resolve rest (guid :: explSeen)
            (addCAmount totalExploited exploitedAmount) infs.2

/-- The loop over `recipients`, from the running `totalRedeem`; `none` when a recipient
script has no destination (`return false`). -/
def redeemLoop (resolve : CScript → Option String) : List RedeemData → Int → Option Int
  | [], totalRedeem => some totalRedeem
  | rec :: rest, totalRedeem =>
    match resolve rec.scriptPubKey with
    | none => none
    | some recipientAddress =>
      redeemLoop resolve rest
        (if recipientAddress = redeemAddress then addCAmount totalRedeem rec.amount
         else totalRedeem)

/-- What a call of `RedeemAddressVerified` produces: the returned value, the validator
afterwards and the lines logged. -/
structure RedeemResult (ops : DoubleOps) where
  verified : Bool
  state : State ops
  log : List LogEvent

/-- The function `CoinValidator::RedeemAddressVerified`. -/
def RedeemAddressVerified {ops : DoubleOps} (resolve : CScript → Option String)
    (s : State ops) (exploited recipients : List RedeemData) : RedeemResult ops :=
  if recipients.isEmpty then ⟨false, s, []⟩
  else
    let r := exploitedLoop resolve exploited [] 0 s.infMap
    let s1 : State ops := { s with infMap := r.2 }
    match r.1 with
    | none => ⟨false, s1, []⟩
    | some totalExploited =>
      if totalExploited = 0 then ⟨true, s1, []⟩
      else
        match redeemLoop resolve recipients 0 with
        | none => ⟨false, s1, []⟩
        | some totalRedeem =>
          let success := decide (totalRedeem ≥ totalExploited)
          if !success && decide (totalRedeem > 0) then
            ⟨success, s1, [LogEvent.failedToRedeem totalExploited]⟩
          else ⟨success, s1, []⟩

/-! ## `IsLoaded`, `Clear`, `GetInfractions` -/

/-- The function `CoinValidator::IsLoaded`. -/
def IsLoaded {ops : DoubleOps} (s : State ops) : Bool := s.infMapLoaded

/-- The function `CoinValidator::Clear`. -/
def Clear {ops : DoubleOps} (_s : State ops) : State ops :=
  { infMap := [], infMapLoaded := false }

/-- The function `CoinValidator::GetInfractions(txId)`: `return infMap[txId.ToString()]`, with the
validator afterwards. -/
def GetInfractions {ops : DoubleOps} (s : State ops) (txId : String) :
    List (InfractionData ops) × State ops :=
  let r := mapIndex s.infMap txId
  (r.1, { s with infMap := r.2 })

/-- The inner loop of `GetInfractions(address)` over the vector of one map item:
`if (inf.address == address.ToString()) infs.push_back(inf)`, from the running `infs`. -/
def scanRecords {ops : DoubleOps} (address : String) :
    List (InfractionData ops) → List (InfractionData ops) → List (InfractionData ops)
  | [], infs => infs
  | inf :: rest, infs =>
    scanRecords address rest (if inf.address = address then infs ++ [inf] else infs)

/-- The outer loop `for (auto &item : infMap)` of `GetInfractions(address)`, from the
running `infs`. -/
def scanItems {ops : DoubleOps} (address : String) :
    InfMap ops → List (InfractionData ops) → List (InfractionData ops)
  | [], infs => infs
  | item :: rest, infs => scanItems address rest (scanRecords address item.2 infs)

/-- The function `CoinValidator::GetInfractions(address)`: the records with that address,
scanning the map in key order. The argument is the string `address.ToString()`. -/
def GetInfractionsByAddress {ops : DoubleOps} (s : State ops) (address : String) :
    List (InfractionData ops) :=
  scanItems address s.infMap []

/-! ## Stream extraction (`std::stringstream`, classic locale) -/

/-- The test `isspace` in the classic locale. -/
def isSpace (c : Char) : Bool :=
  c = ' ' || c = '\t' || c = '\n' || c = '\x0b' || c = '\x0c' || c = '\r'

/-- An input stream: the unread characters and `good()`. -/
structure IStream where
  buf : List Char
  good : Bool

/-- The sentry of a formatted extraction: it fails on a stream that is not good, else skips
whitespace and fails when that reaches the end of the input. -/
def sentry (is : IStream) : Bool × IStream :=
  if !is.good then (false, is)
  else
    let b := is.buf.dropWhile isSpace
    if b.isEmpty then (false, ⟨[], false⟩) else (true, ⟨b, true⟩)

/-- The extraction `os >> str`: the characters up to the next whitespace; `str` is left as it was when the
sentry fails. Reaching the end of the input sets `eofbit`. -/
def getString (is : IStream) (str : String) : String × IStream :=
  match sentry is with
  | (false, is1) => (str, is1)
  | (true, is1) =>
    let rest := is1.buf.dropWhile (fun c => !isSpace c)
    (String.mk (is1.buf.takeWhile (fun c => !isSpace c)), ⟨rest, !rest.isEmpty⟩)

/-- The value of a run of decimal digits. -/
def digitsValue (ds : List Char) : Nat :=
  ds.foldl (fun acc c => acc * 10 + (c.toNat - 48)) 0

/-- The extraction `os >> amt` for `int64_t`: an optional sign and decimal digits. With no digit the
value is 0 and the stream fails; out of range the value is the nearest limit and the
stream fails; `amt` is left as it was when the sentry fails. -/
def getCAmount (is : IStream) (amt : Int) : Int × IStream :=
  match sentry is with
  | (false, is1) => (amt, is1)
  | (true, is1) =>
    let signed : Bool × List Char :=
      match is1.buf with
      | '-' :: r => (true, r)
      | '+' :: r => (false, r)
      | b => (false, b)
    let ds := signed.2.takeWhile Char.isDigit
    let rest := signed.2.dropWhile Char.isDigit
    if ds.isEmpty then (0, ⟨rest, false⟩)
    else
      let v : Int := if signed.1 then -(digitsValue ds : Int) else (digitsValue ds : Int)
      if v ≥ 2 ^ 63 then (2 ^ 63 - 1, ⟨rest, false⟩)
      else if v < -(2 ^ 63) then (-(2 ^ 63), ⟨rest, false⟩)
      else (v, ⟨rest, !rest.isEmpty⟩)

/-- The extraction `os >> amtd` for `double`, the last extraction of `addLine`: `amtd` is left as it was
when the sentry fails. -/
def getDouble (ops : DoubleOps) (is : IStream) (amtd : ops.D) : ops.D :=
  match sentry is with
  | (false, _) => amtd
  | (true, is1) => ops.numGet is1.buf

/-! ## Serialisation -/

/-- The function `std::to_string` of an `int64_t`. -/
def to_string (n : Int) : String :=
  if n < 0 then "-" ++ Nat.repr n.natAbs else Nat.repr n.toNat

/-- The function `CoinValidator::AmountToString`. -/
def AmountToString (ops : DoubleOps) (amount : ops.D) : String := ops.fixed amount

/-- The function `InfractionData::ToString`. -/
def InfractionData.ToString {ops : DoubleOps} (inf : InfractionData ops) : String :=
  inf.txid ++ "\t" ++ inf.address ++ "\t" ++ to_string inf.amount ++ "\t"
    ++ AmountToString ops inf.amountH

/-! ## `addLine`, `LoadStatic` -/

/-- How a call ends: it returns a value, or an `assert` fails and the process aborts. -/
inductive Outcome (α : Type) where
  | returned (a : α)
  | aborted

/-- The four extractions `os >> t >> a >> amt >> amtd` of `addLine`. -/
def parseLine (ops : DoubleOps) (line : String) : String × String × Int × ops.D :=
  let r1 := getString ⟨line.data, true⟩ ""
  let r2 := getString r1.2 ""
  let r3 := getCAmount r2.2 0
  (r1.1, r2.1, r3.1, getDouble ops r3.2 ops.zero)

/-- The function `CoinValidator::addLine`: the returned flag with the map afterwards. -/
def addLine {ops : DoubleOps} (line : String) (map : InfMap ops) :
    Outcome (Bool × InfMap ops) :=
  match parseLine ops line with
  | (t, a, amt, amtd) =>
    if t.isEmpty || a.isEmpty || amt == 0 || ops.isZero amtd then .returned (false, map)
    else if line ≠ t ++ "\t" ++ a ++ "\t" ++ to_string amt ++ "\t" ++ AmountToString ops amtd
    then .aborted
    else
      let inf : InfractionData ops := ⟨t, a, amt, amtd⟩
      let infs := mapIndex map inf.txid
      .returned (true, mapModify inf.txid (fun v => v ++ [inf]) infs.2)

/-- The loop of `LoadStatic` over the lines: `assert(result)` aborts on the first line that
`addLine` refuses (after logging it). -/
def loadLines {ops : DoubleOps} : List String → InfMap ops → Outcome (InfMap ops)
  | [], infMap => .returned infMap
  | line :: rest, infMap =>
    match addLine line infMap with
    | .aborted => .aborted
    | .returned (false, _) => .aborted
    | .returned (true, infMap1) => loadLines rest infMap1

/-- The body of `CoinValidator::LoadStatic` on the list `infractions` of lines. -/
def LoadStaticFrom {ops : DoubleOps} (infractions : List String) (s : State ops) :
    Outcome (Bool × State ops) :=
  if s.infMapLoaded then .returned (false, s)
  else
    match loadLines infractions ([] : InfMap ops) with
    | .aborted => .aborted
    | .returned infMap => .returned (true, { infMap := infMap, infMapLoaded := true })

/-- The function `CoinValidator::getExplList`. -/
def getExplList : List String := []

/-- The function `CoinValidator::LoadStatic`. -/
def LoadStatic {ops : DoubleOps} (s : State ops) : Outcome (Bool × State ops) :=
  LoadStaticFrom getExplList s

/-! ## The reconciliation predicate, as the specification words it -/

/-- The records the registry stores for a transaction id (none when the id is absent). -/
def registryRecords {ops : DoubleOps} (m : InfMap ops) (txid : String) :
    List (InfractionData ops) :=
  (mapFind m txid).getD []

/-- The integer amounts of the records stored for `p.1` whose address is `p.2`, summed. -/
def registryAmount {ops : DoubleOps} (m : InfMap ops) (p : String × String) : Int :=
  (((registryRecords m p.1).filter (fun inf => inf.address = p.2)).map
    (fun inf => inf.amount)).sum

/-- The (txid, resolved address) pairs occurring among the exploited inputs. -/
def exploitedPairs (resolve : CScript → Option String) (exploited : List RedeemData) :
    List (String × String) :=
  exploited.filterMap (fun e => (resolve e.scriptPubKey).map (fun a => (e.txid, a)))

/-- The sum of `registryAmount` over the distinct pairs of the exploited inputs. -/
def specExploitedSum {ops : DoubleOps} (resolve : CScript → Option String) (m : InfMap ops)
    (exploited : List RedeemData) : Int :=
  ∑ p in (exploitedPairs resolve exploited).toFinset, registryAmount m p

/-- The sum of the amounts of the recipients whose resolved address is the redemption
address. -/
def specRedeemedSum (resolve : CScript → Option String) (recipients : List RedeemData) : Int :=
  ((recipients.filter (fun r => resolve r.scriptPubKey = some redeemAddress)).map
    (fun r => r.amount)).sum

/-! ## Reachable states -/

/-- The states the public operations lead to from the initial validator. The read-only
operations `IsLoaded`, `IsCoinValid` and `GetInfractions(address)` leave the state as it is. -/
inductive Reachable {ops : DoubleOps} (resolve : CScript → Option String) : State ops → Prop
  | initial : Reachable resolve (State.initial ops)
  | load {s s1 : State ops} {b : Bool} (infractions : List String) :
      Reachable resolve s → LoadStaticFrom infractions s = .returned (b, s1) →
      Reachable resolve s1
  | clear {s : State ops} : Reachable resolve s → Reachable resolve (Clear s)
  | getInfractions {s : State ops} (txId : String) :
      Reachable resolve s → Reachable resolve (GetInfractions s txId).2
  | redeemAddressVerified {s : State ops} (exploited recipients : List RedeemData) :
      Reachable resolve s →
      Reachable resolve (RedeemAddressVerified resolve s exploited recipients).state

/-! ## Data for running the embedding on examples -/

/-- Six decimals of a count of millionths, zero padded. -/
def padMicro (n : Nat) : String :=
  String.mk (List.replicate (6 - (Nat.repr n).length) '0') ++ Nat.repr n

/-- A count of millionths printed with six decimals. -/
def fixedMicro (d : Int) : String :=
  (if d < 0 then "-" else "") ++ Nat.repr (d.natAbs / 1000000) ++ "."
    ++ padMicro (d.natAbs % 1000000)

/-- A decimal numeral read as a count of millionths. -/
def numGetMicro (cs : List Char) : Int :=
  let signed : Bool × List Char :=
    match cs with
    | '-' :: r => (true, r)
    | '+' :: r => (false, r)
    | b => (false, b)
  let ip := signed.2.takeWhile Char.isDigit
  let fp : List Char :=
    match signed.2.dropWhile Char.isDigit with
    | '.' :: r => r.takeWhile Char.isDigit
    | _ => []
  let v : Int := (digitsValue ip * 1000000 + digitsValue ((fp ++ List.replicate 6 '0').take 6) : Nat)
  if signed.1 then -v else v

/-- A stand-in for `double` on which the examples run: amounts with at most six decimals,
held as a count of millionths. -/
def decimalOps : DoubleOps where
  D := Int
  zero := 0
  isZero := fun d => d == 0
  numGet := numGetMicro
  fixed := fixedMicro
  isZero_zero := rfl

/-- An address resolver for the examples: script `[1]` pays `addrA`, `[2]` pays the
redemption address, `[3]` pays `addrB`, any other script has no destination. -/
def exampleResolve : CScript → Option String
  | [1] => some "addrA"
  | [2] => some redeemAddress
  | [3] => some "addrB"
  | _ => none

/-- The registry of the scenarios: the one record `("tx1", "addrA", 1000, 1000.0)`. -/
def scenarioState : State decimalOps :=
  { infMap := [("tx1", [⟨"tx1", "addrA", 1000, (1000000000 : Int)⟩])], infMapLoaded := true }

/-- A transaction id as `uint256::ToString` prints it: 64 hexadecimal digits. -/
def exampleTxId : String :=
  "00000000000000000000000000000000000000000000000000000000000000a1"

/-! ## Lines of the dataset -/

/-- The record `InfractionData(t, a, amt, amtd)` that `addLine` builds from a line. -/
def parsedRecord (ops : DoubleOps) (line : String) : InfractionData ops :=
  let p := parseLine ops line
  ⟨p.1, p.2.1, p.2.2.1, p.2.2.2⟩

/-- A line is well formed when `addLine` takes it: no assertion fails and the call
returns true. -/
def lineAccepted (ops : DoubleOps) (line : String) : Bool :=
  match addLine line ([] : InfMap ops) with
  | .returned (true, _) => true
  | _ => false

/-- The txid field of a line, as the specification words it: the text before the first
tab. -/
def lineTxid (line : String) : String :=
  String.mk (line.data.takeWhile (fun c => c ≠ '\t'))

/-- The dataset of the examples: two records for `tx1` and one for another transaction. -/
def exampleDataset : List String :=
  ["tx1\taddrA\t1000\t1000.000000",
   "00000000000000000000000000000000000000000000000000000000000000a1\taddrB\t-5\t0.500000",
   "tx1\taddrB\t250\t2.500000"]

/-- The validator after `Load` of the example dataset into the initial validator. -/
def exampleLoaded : State decimalOps :=
  match LoadStaticFrom exampleDataset (State.initial decimalOps) with
  | .returned (_, s1) => s1
  | .aborted => State.initial decimalOps

/-- A dataset whose second line separates its fields by blanks, not tabs. -/
def blankSeparatedDataset : List String :=
  ["tx1\taddrA\t1000\t1000.000000", "tx1 addrB 250 2.500000"]

/-! ## Definitions for the claims about the registry -/

/-- All the records the map stores, item after item in key order. -/
def storedRecords {ops : DoubleOps} (m : InfMap ops) : List (InfractionData ops) :=
  (m.map (fun item => item.2)).flatten

/-- The invariant of a stored record: no empty txid or address, no zero amount. -/
def recordValid {ops : DoubleOps} (inf : InfractionData ops) : Prop :=
  inf.txid ≠ "" ∧ inf.address ≠ "" ∧ inf.amount ≠ 0 ∧ ops.isZero inf.amountH = false

/-- A call of one public operation. -/
inductive Op where
  | load (dataset : List String)
  | clear
  | isLoaded
  | isCoinValid (txId : String)
  | getInfractions (txId : String)
  | getInfractionsByAddress (address : String)
  | redeemAddressVerified (exploited recipients : List RedeemData)
deriving DecidableEq

/-- One public operation run on a state: the value `Load` returns, if the operation is
`Load`, and the state afterwards. -/
def applyOp {ops : DoubleOps} (resolve : CScript → Option String) (s : State ops) :
    Op → Outcome (Option Bool × State ops)
  | .load dataset =>
    match LoadStaticFrom dataset s with
    | .aborted => .aborted
    | .returned (b, s1) => .returned (some b, s1)
  | .clear => .returned (none, Clear s)
  | .isLoaded => .returned (none, s)
  | .isCoinValid _ => .returned (none, s)
  | .getInfractions txId => .returned (none, (GetInfractions s txId).2)
  | .getInfractionsByAddress _ => .returned (none, s)
  | .redeemAddressVerified exploited recipients =>
    .returned (none, (RedeemAddressVerified resolve s exploited recipients).state)

/-- A sequence of public operations run one after the other: the values returned by the
`Load` calls among them, in order, and the final state. -/
def runOps {ops : DoubleOps} (resolve : CScript → Option String) :
    List Op → State ops → Outcome (List Bool × State ops)
  | [], s => .returned ([], s)
  | op :: rest, s =>
    match applyOp resolve s op with
    | .aborted => .aborted
    | .returned (r, s1) =>
      match runOps resolve rest s1 with
      | .aborted => .aborted
      | .returned (bs, s2) => .returned (r.toList ++ bs, s2)

/-- The contents of `explSeen` when the loop of `RedeemAddressVerified` over the exploited
inputs has run over `es` from `explSeen`: the key of every input that was not skipped is
inserted. The loop stops at an input it rejects. -/
def explSeenAfter {ops : DoubleOps} (resolve : CScript → Option String) (infMap : InfMap ops) :
    List RedeemData → List String → List String
  | [], explSeen => explSeen
  | expl :: rest, explSeen =>
    if mapCount infMap expl.txid = 0 then explSeen
    else
      match resolve expl.scriptPubKey with
      | none => explSeen
      | some explAddr =>
        let guid := expl.txid ++ "-" ++ explAddr
        if guid ∈ explSeen then explSeenAfter resolve infMap rest explSeen
        else explSeenAfter resolve infMap rest (guid :: explSeen)

/-! ## Lemmas: the map -/

theorem mapIndex_of_count_ne_zero {ops : DoubleOps} (m : InfMap ops) (k : String)
    (h : mapCount m k ≠ 0) : mapIndex m k = (registryRecords m k, m) := by
  unfold mapCount at h
  unfold mapIndex registryRecords
  cases hf : mapFind m k with
  | none => simp [hf] at h
  | some v => simp

/-! ## Lemmas: the loop over the exploited inputs -/

theorem exploitedLoop_snd {ops : DoubleOps} (resolve : CScript → Option String)
    (es : List RedeemData) (seen : List String) (total : Int) (m : InfMap ops) :
    (exploitedLoop resolve es seen total m).2 = m := by
  induction es generalizing seen total with
  | nil => rfl
  | cons e es ih =>
    unfold exploitedLoop
    by_cases hc : mapCount m e.txid = 0
    · simp [hc]
    · cases hr : resolve e.scriptPubKey with
      | none => simp [hc]
      | some a =>
        simp only [hc, if_false]
        by_cases hs : e.txid ++ "-" ++ a ∈ seen
        · simp only [hs, if_true]; exact ih _ _
        · simp only [hs, if_false]
          rw [mapIndex_of_count_ne_zero m e.txid hc]
          exact ih _ _

theorem exploitedLoop_unregistered {ops : DoubleOps} (resolve : CScript → Option String)
    (es : List RedeemData) (seen : List String) (total : Int) (m : InfMap ops)
    (h : ∃ e ∈ es, mapCount m e.txid = 0) :
    (exploitedLoop resolve es seen total m).1 = none := by
  induction es generalizing seen total with
  | nil => simp at h
  | cons e es ih =>
    unfold exploitedLoop
    by_cases hc : mapCount m e.txid = 0
    · simp [hc]
    · have h1 : ∃ e ∈ es, mapCount m e.txid = 0 := by
        obtain ⟨x, hx, hx0⟩ := h
        rcases List.mem_cons.mp hx with rfl | hx
        · exact absurd hx0 hc
        · exact ⟨x, hx, hx0⟩
      cases hr : resolve e.scriptPubKey with
      | none => simp [hc]
      | some a =>
        simp only [hc, if_false]
        by_cases hs : e.txid ++ "-" ++ a ∈ seen
        · simp only [hs, if_true]; exact ih _ _ h1
        · simp only [hs, if_false]
          rw [mapIndex_of_count_ne_zero m e.txid hc]
          exact ih _ _ h1

theorem exploitedLoop_unresolved {ops : DoubleOps} (resolve : CScript → Option String)
    (es : List RedeemData) (seen : List String) (total : Int) (m : InfMap ops)
    (h : ∃ e ∈ es, resolve e.scriptPubKey = none) :
    (exploitedLoop resolve es seen total m).1 = none := by
  induction es generalizing seen total with
  | nil => simp at h
  | cons e es ih =>
    unfold exploitedLoop
    by_cases hc : mapCount m e.txid = 0
    · simp [hc]
    · cases hr : resolve e.scriptPubKey with
      | none => simp [hc]
      | some a =>
        have h1 : ∃ e ∈ es, resolve e.scriptPubKey = none := by
          obtain ⟨x, hx, hx0⟩ := h
          rcases List.mem_cons.mp hx with rfl | hx
          · rw [hr] at hx0; cases hx0
          · exact ⟨x, hx, hx0⟩
        simp only [hc, if_false]
        by_cases hs : e.txid ++ "-" ++ a ∈ seen
        · simp only [hs, if_true]; exact ih _ _ h1
        · simp only [hs, if_false]
          rw [mapIndex_of_count_ne_zero m e.txid hc]
          exact ih _ _ h1

theorem redeemLoop_unresolved (resolve : CScript → Option String)
    (rs : List RedeemData) (total : Int)
    (h : ∃ r ∈ rs, resolve r.scriptPubKey = none) :
    redeemLoop resolve rs total = none := by
  induction rs generalizing total with
  | nil => simp at h
  | cons r rs ih =>
    unfold redeemLoop
    cases hr : resolve r.scriptPubKey with
    | none => rfl
    | some a =>
      have h1 : ∃ r ∈ rs, resolve r.scriptPubKey = none := by
        obtain ⟨x, hx, hx0⟩ := h
        rcases List.mem_cons.mp hx with rfl | hx
        · rw [hr] at hx0; cases hx0
        · exact ⟨x, hx, hx0⟩
      exact ih _ h1

/-! ## Lemmas: `CAmount` sums and the dedup key -/

theorem wrapCAmount_add_left (a b : Int) :
    wrapCAmount (wrapCAmount a + b) = wrapCAmount (a + b) := by
  unfold wrapCAmount
  norm_num
  omega

theorem wrapCAmount_add_right (a b : Int) :
    wrapCAmount (a + wrapCAmount b) = wrapCAmount (a + b) := by
  unfold wrapCAmount
  norm_num
  omega

theorem wrapCAmount_idem (a : Int) : wrapCAmount (wrapCAmount a) = wrapCAmount a := by
  have h := wrapCAmount_add_left a 0
  simpa using h

theorem wrapCAmount_of_inRange (x : Int) (h : inCAmountRange x) : wrapCAmount x = x := by
  unfold inCAmountRange at h
  unfold wrapCAmount
  norm_num at h ⊢
  omega

theorem exploitedAmountFrom_wrap {ops : DoubleOps} (addr : String)
    (infs : List (InfractionData ops)) (a acc : Int) :
    wrapCAmount (a + exploitedAmountFrom addr infs acc) =
      wrapCAmount (a + acc +
        ((infs.filter (fun inf => inf.address = addr)).map (fun inf => inf.amount)).sum) := by
  induction infs generalizing acc with
  | nil => simp [exploitedAmountFrom]
  | cons inf infs ih =>
    unfold exploitedAmountFrom
    rw [ih]
    by_cases h : inf.address = addr
    · simp only [h, if_true, decide_True, List.filter_cons_of_pos, List.map_cons, List.sum_cons]
      unfold addCAmount
      rw [add_assoc a, add_comm (wrapCAmount _), ← add_assoc a, wrapCAmount_add_right]
      congr 1
      ring
    · simp [h]

theorem guid_injective (t1 a1 t2 a2 : String)
    (h1 : '-' ∉ t1.data) (h2 : '-' ∉ t2.data)
    (h : t1 ++ "-" ++ a1 = t2 ++ "-" ++ a2) : t1 = t2 ∧ a1 = a2 := by
  have hd : t1.data ++ ('-' :: a1.data) = t2.data ++ ('-' :: a2.data) := by
    have := congrArg String.data h
    simpa [String.data_append] using this
  have key : ∀ (l1 l2 r1 r2 : List Char), '-' ∉ l1 → '-' ∉ l2 →
      l1 ++ ('-' :: r1) = l2 ++ ('-' :: r2) → l1 = l2 ∧ r1 = r2 := by
    intro l1
    induction l1 with
    | nil =>
      intro l2 r1 r2 _ h2 h
      cases l2 with
      | nil => simpa using h
      | cons c l2 =>
        simp only [List.nil_append, List.cons_append, List.cons.injEq] at h
        exact absurd (h.1 ▸ List.mem_cons_self _ _) h2
    | cons c l1 ih =>
      intro l2 r1 r2 h1 h2 h
      cases l2 with
      | nil =>
        simp only [List.nil_append, List.cons_append, List.cons.injEq] at h
        exact absurd (h.1 ▸ List.mem_cons_self _ _) h1
      | cons d l2 =>
        simp only [List.cons_append, List.cons.injEq] at h
        obtain ⟨hl, hr⟩ := ih l2 r1 r2 (fun hm => h1 (List.mem_cons_of_mem _ hm))
          (fun hm => h2 (List.mem_cons_of_mem _ hm)) h.2
        exact ⟨by rw [h.1, hl], hr⟩
  obtain ⟨hl, hr⟩ := key _ _ _ _ h1 h2 hd
  exact ⟨String.ext hl, String.ext hr⟩

/-! ## Lemmas: the loops against the sums of the specification -/

theorem exploitedPairs_cons (resolve : CScript → Option String) (e : RedeemData)
    (es : List RedeemData) (a : String) (h : resolve e.scriptPubKey = some a) :
    exploitedPairs resolve (e :: es) = (e.txid, a) :: exploitedPairs resolve es := by
  simp [exploitedPairs, List.filterMap_cons, h]

theorem exploitedLoop_spec {ops : DoubleOps} (resolve : CScript → Option String)
    (m : InfMap ops) (es : List RedeemData) :
    ∀ (seen : List String) (P : Finset (String × String)) (total : Int),
    (∀ e ∈ es, mapCount m e.txid ≠ 0) →
    (∀ e ∈ es, resolve e.scriptPubKey ≠ none) →
    (∀ e ∈ es, '-' ∉ e.txid.data) →
    (∀ p : String × String, '-' ∉ p.1.data → (p.1 ++ "-" ++ p.2 ∈ seen ↔ p ∈ P)) →
    wrapCAmount total = total →
    (exploitedLoop resolve es seen total m).1 =
      some (wrapCAmount (total +
        ∑ p in (exploitedPairs resolve es).toFinset \ P, registryAmount m p)) := by
  induction es with
  | nil =>
    intro seen P total _ _ _ _ ht
    simp [exploitedLoop, exploitedPairs, ht]
  | cons e es ih =>
    intro seen P total hreg hres hdash hseen ht
    have hc : mapCount m e.txid ≠ 0 := hreg e (List.mem_cons_self _ _)
    have hd : '-' ∉ e.txid.data := hdash e (List.mem_cons_self _ _)
    have hreg1 : ∀ x ∈ es, mapCount m x.txid ≠ 0 :=
      fun x hx => hreg x (List.mem_cons_of_mem _ hx)
    have hres1 : ∀ x ∈ es, resolve x.scriptPubKey ≠ none :=
      fun x hx => hres x (List.mem_cons_of_mem _ hx)
    have hdash1 : ∀ x ∈ es, '-' ∉ x.txid.data :=
      fun x hx => hdash x (List.mem_cons_of_mem _ hx)
    cases hr : resolve e.scriptPubKey with
    | none => exact absurd hr (hres e (List.mem_cons_self _ _))
    | some a =>
      rw [exploitedPairs_cons resolve e es a hr, List.toFinset_cons]
      unfold exploitedLoop
      simp only [hc, if_false, hr]
      have hmem : e.txid ++ "-" ++ a ∈ seen ↔ (e.txid, a) ∈ P := hseen (e.txid, a) hd
      by_cases hs : e.txid ++ "-" ++ a ∈ seen
      · simp only [hs, if_true]
        rw [ih seen P total hreg1 hres1 hdash1 hseen ht,
          Finset.insert_sdiff_of_mem _ (hmem.mp hs)]
      · simp only [hs, if_false]
        have hP : (e.txid, a) ∉ P := fun hp => hs (hmem.mpr hp)
        rw [mapIndex_of_count_ne_zero m e.txid hc]
        have hseen1 : ∀ p : String × String, '-' ∉ p.1.data →
            (p.1 ++ "-" ++ p.2 ∈ (e.txid ++ "-" ++ a) :: seen ↔ p ∈ insert (e.txid, a) P) := by
          intro p hp
          rw [List.mem_cons, Finset.mem_insert, hseen p hp]
          constructor
          · rintro (h | h)
            · obtain ⟨h1, h2⟩ := guid_injective _ _ _ _ hp hd h
              exact Or.inl (Prod.ext h1 h2)
            · exact Or.inr h
          · rintro (h | h)
            · left; rw [h]
            · exact Or.inr h
        rw [ih _ (insert (e.txid, a) P) _ hreg1 hres1 hdash1 hseen1
          (by unfold addCAmount; exact wrapCAmount_idem _)]
        have hset : insert (e.txid, a) (exploitedPairs resolve es).toFinset \ P =
            insert (e.txid, a)
              ((exploitedPairs resolve es).toFinset \ insert (e.txid, a) P) := by
          ext x
          simp only [Finset.mem_sdiff, Finset.mem_insert]
          constructor
          · rintro ⟨h1 | h1, h2⟩
            · exact Or.inl h1
            · by_cases hx : x = (e.txid, a)
              · exact Or.inl hx
              · exact Or.inr ⟨h1, fun h => h.elim hx h2⟩
          · rintro (h1 | ⟨h1, h2⟩)
            · exact ⟨Or.inl h1, h1 ▸ hP⟩
            · exact ⟨Or.inr h1, fun h => h2 (Or.inr h)⟩
        have hnot : (e.txid, a) ∉
            (exploitedPairs resolve es).toFinset \ insert (e.txid, a) P := by
          simp
        rw [hset, Finset.sum_insert hnot]
        unfold addCAmount
        rw [wrapCAmount_add_left]
        have h1 := exploitedAmountFrom_wrap a (registryRecords m e.txid)
          (total + ∑ p in (exploitedPairs resolve es).toFinset \ insert (e.txid, a) P,
            registryAmount m p) 0
        have e1 : total + exploitedAmountFrom a (registryRecords m e.txid) 0 +
            ∑ p in (exploitedPairs resolve es).toFinset \ insert (e.txid, a) P,
              registryAmount m p =
            (total + ∑ p in (exploitedPairs resolve es).toFinset \ insert (e.txid, a) P,
              registryAmount m p) + exploitedAmountFrom a (registryRecords m e.txid) 0 := by
          ring
        rw [e1, h1]
        congr 2
        unfold registryAmount
        simp only
        ring

theorem exploitedLoop_eq_spec {ops : DoubleOps} (resolve : CScript → Option String)
    (m : InfMap ops) (es : List RedeemData)
    (hreg : ∀ e ∈ es, mapCount m e.txid ≠ 0)
    (hres : ∀ e ∈ es, resolve e.scriptPubKey ≠ none)
    (hdash : ∀ e ∈ es, '-' ∉ e.txid.data) :
    (exploitedLoop resolve es [] 0 m).1 = some (wrapCAmount (specExploitedSum resolve m es)) := by
  have h := exploitedLoop_spec resolve m es [] ∅ 0 hreg hres hdash
    (by intro p _; simp) (by decide)
  simpa [specExploitedSum] using h

theorem redeemLoop_spec (resolve : CScript → Option String) (rs : List RedeemData) :
    ∀ total : Int, (∀ r ∈ rs, resolve r.scriptPubKey ≠ none) → wrapCAmount total = total →
    redeemLoop resolve rs total = some (wrapCAmount (total + specRedeemedSum resolve rs)) := by
  induction rs with
  | nil =>
    intro total _ ht
    simp [redeemLoop, specRedeemedSum, ht]
  | cons r rs ih =>
    intro total hres ht
    have hres1 : ∀ x ∈ rs, resolve x.scriptPubKey ≠ none :=
      fun x hx => hres x (List.mem_cons_of_mem _ hx)
    cases hr : resolve r.scriptPubKey with
    | none => exact absurd hr (hres r (List.mem_cons_self _ _))
    | some a =>
      unfold redeemLoop
      simp only [hr]
      by_cases ha : a = redeemAddress
      · simp only [ha, if_true]
        rw [ih _ hres1 (by unfold addCAmount; exact wrapCAmount_idem _)]
        unfold addCAmount
        rw [wrapCAmount_add_left]
        congr 2
        have : specRedeemedSum resolve (r :: rs) = r.amount + specRedeemedSum resolve rs := by
          simp [specRedeemedSum, List.filter_cons, hr, ha]
        rw [this]
        ring
      · simp only [ha, if_false]
        rw [ih _ hres1 ht]
        congr 2
        simp [specRedeemedSum, List.filter_cons, hr, ha]

theorem specRedeemedSum_nonneg (resolve : CScript → Option String) (rs : List RedeemData)
    (h : ∀ r ∈ rs, 0 ≤ r.amount) : 0 ≤ specRedeemedSum resolve rs := by
  unfold specRedeemedSum
  apply List.sum_nonneg
  intro x hx
  obtain ⟨r, hr, rfl⟩ := List.mem_map.mp hx
  exact h r (List.mem_of_mem_filter hr)

theorem exploitedLoop_amount_irrelevant {ops : DoubleOps} (resolve : CScript → Option String)
    (es : List RedeemData) :
    ∀ (es1 : List RedeemData) (seen : List String) (total : Int) (m : InfMap ops),
    es.map (fun e => (e.txid, e.scriptPubKey)) = es1.map (fun e => (e.txid, e.scriptPubKey)) →
    exploitedLoop resolve es seen total m = exploitedLoop resolve es1 seen total m := by
  induction es with
  | nil =>
    intro es1 seen total m h
    cases es1 with
    | nil => rfl
    | cons _ _ => simp at h
  | cons e es ih =>
    intro es1 seen total m h
    cases es1 with
    | nil => simp at h
    | cons e1 es1 =>
      simp only [List.map_cons, List.cons.injEq, Prod.mk.injEq] at h
      obtain ⟨⟨ht, hs⟩, hrest⟩ := h
      unfold exploitedLoop
      rw [← ht, ← hs]
      by_cases hc : mapCount m e.txid = 0
      · simp [hc]
      · simp only [hc, if_false]
        cases hr : resolve e.scriptPubKey with
        | none => rfl
        | some a =>
          simp only
          by_cases hg : e.txid ++ "-" ++ a ∈ seen
          · simp only [hg, if_true]; exact ih es1 _ _ _ hrest
          · simp only [hg, if_false]; exact ih es1 _ _ _ hrest

/-! ## Claims about `RedeemAddressVerified` -/

/-- C1: when the recipients are non-empty, every exploited txid has a registry entry,
every script resolves, no exploited txid contains `-`, the recipient amounts are
non-negative and the two sums fit `int64_t`, `RedeemAddressVerified` returns true if and
only if the sum paid to the redemption address is at least the sum, over the distinct
(txid, address) pairs of the exploited inputs, of the registry amounts recorded for that
txid and address. -/
theorem redeem_iff_reconciliation {ops : DoubleOps} (resolve : CScript → Option String)
    (s : State ops) (exploited recipients : List RedeemData)
    (hne : recipients ≠ [])
    (hreg : ∀ e ∈ exploited, mapCount s.infMap e.txid ≠ 0)
    (hresE : ∀ e ∈ exploited, resolve e.scriptPubKey ≠ none)
    (hresR : ∀ r ∈ recipients, resolve r.scriptPubKey ≠ none)
    (hdash : ∀ e ∈ exploited, '-' ∉ e.txid.data)
    (hnonneg : ∀ r ∈ recipients, 0 ≤ r.amount)
    (hR : inCAmountRange (specRedeemedSum resolve recipients))
    (hE : inCAmountRange (specExploitedSum resolve s.infMap exploited)) :
    ((RedeemAddressVerified resolve s exploited recipients).verified = true ↔
      specRedeemedSum resolve recipients ≥ specExploitedSum resolve s.infMap exploited) := by
  have hemp : recipients.isEmpty = false := by
    cases recipients with
    | nil => exact absurd rfl hne
    | cons _ _ => rfl
  have hloop := exploitedLoop_eq_spec resolve s.infMap exploited hreg hresE hdash
  rw [wrapCAmount_of_inRange _ hE] at hloop
  have hred := redeemLoop_spec resolve recipients 0 hresR (by decide)
  rw [zero_add, wrapCAmount_of_inRange _ hR] at hred
  unfold RedeemAddressVerified
  simp only [hemp, hloop, hred]
  by_cases h0 : specExploitedSum resolve s.infMap exploited = 0
  · have := specRedeemedSum_nonneg resolve recipients hnonneg
    simp [h0, this]
  · by_cases hge : specRedeemedSum resolve recipients ≥ specExploitedSum resolve s.infMap exploited
    · simp [h0, hge]
    · by_cases hpos : specRedeemedSum resolve recipients > 0
      · simp [h0, hge, hpos]
      · simp [h0, hge, hpos]

/-- Witness of C1 (scenario A): the registry records 1000 for `tx1`/`addrA`, the input
carries 500 and the recipient pays 1000 to the redemption address. -/
theorem redeem_iff_reconciliation_witness :
    ([(⟨"", [2], 1000⟩ : RedeemData)] ≠ []) ∧
    (∀ e ∈ [(⟨"tx1", [1], 500⟩ : RedeemData)], mapCount scenarioState.infMap e.txid ≠ 0) ∧
    (∀ e ∈ [(⟨"tx1", [1], 500⟩ : RedeemData)], exampleResolve e.scriptPubKey ≠ none) ∧
    (∀ r ∈ [(⟨"", [2], 1000⟩ : RedeemData)], exampleResolve r.scriptPubKey ≠ none) ∧
    (∀ e ∈ [(⟨"tx1", [1], 500⟩ : RedeemData)], '-' ∉ e.txid.data) ∧
    (∀ r ∈ [(⟨"", [2], 1000⟩ : RedeemData)], 0 ≤ r.amount) ∧
    inCAmountRange (specRedeemedSum exampleResolve [⟨"", [2], 1000⟩]) ∧
    inCAmountRange (specExploitedSum exampleResolve scenarioState.infMap [⟨"tx1", [1], 500⟩]) ∧
    ((RedeemAddressVerified exampleResolve scenarioState
        [⟨"tx1", [1], 500⟩] [⟨"", [2], 1000⟩]).verified = true ↔
      specRedeemedSum exampleResolve [⟨"", [2], 1000⟩] ≥
        specExploitedSum exampleResolve scenarioState.infMap [⟨"tx1", [1], 500⟩]) :=
  ⟨by decide, by decide, by decide, by decide, by decide, by decide, by decide, by decide,
   redeem_iff_reconciliation exampleResolve scenarioState [⟨"tx1", [1], 500⟩]
     [⟨"", [2], 1000⟩] (by decide) (by decide) (by decide) (by decide) (by decide)
     (by decide) (by decide) (by decide)⟩

/-- C2: with no recipient output, `RedeemAddressVerified` returns false, whatever the
registry and the exploited inputs are. -/
theorem redeem_empty_recipients_false {ops : DoubleOps} (resolve : CScript → Option String)
    (s : State ops) (exploited : List RedeemData) :
    (RedeemAddressVerified resolve s exploited []).verified = false := by
  simp [RedeemAddressVerified]

/-- C3: when some exploited input, at any position, carries a txid the registry has no
entry for, `RedeemAddressVerified` returns false, whatever the recipients are. -/
theorem redeem_unregistered_txid_false {ops : DoubleOps} (resolve : CScript → Option String)
    (s : State ops) (exploited recipients : List RedeemData)
    (h : ∃ e ∈ exploited, mapCount s.infMap e.txid = 0) :
    (RedeemAddressVerified resolve s exploited recipients).verified = false := by
  unfold RedeemAddressVerified
  by_cases hr : recipients.isEmpty = true
  · simp [hr]
  · simp [hr, exploitedLoop_unregistered resolve exploited [] 0 s.infMap h]

/-- Witness of C3: the second input is a duplicate of the first and is skipped, the third
carries a txid absent from the registry, and the recipient pays the full amount. -/
theorem redeem_unregistered_txid_false_witness :
    (∃ e ∈ [(⟨"tx1", [1], 500⟩ : RedeemData), ⟨"tx1", [1], 500⟩, ⟨exampleTxId, [1], 7⟩],
      mapCount scenarioState.infMap e.txid = 0) ∧
    (RedeemAddressVerified exampleResolve scenarioState
      [⟨"tx1", [1], 500⟩, ⟨"tx1", [1], 500⟩, ⟨exampleTxId, [1], 7⟩]
      [⟨"", [2], 1000⟩]).verified = false :=
  ⟨⟨⟨exampleTxId, [1], 7⟩, by decide, by decide⟩,
   redeem_unregistered_txid_false exampleResolve scenarioState _ _
     ⟨⟨exampleTxId, [1], 7⟩, by decide, by decide⟩⟩

/-- C4: when the script of some exploited input has no destination,
`RedeemAddressVerified` returns false. -/
theorem redeem_unresolved_exploited_false {ops : DoubleOps}
    (resolve : CScript → Option String) (s : State ops)
    (exploited recipients : List RedeemData)
    (h : ∃ e ∈ exploited, resolve e.scriptPubKey = none) :
    (RedeemAddressVerified resolve s exploited recipients).verified = false := by
  unfold RedeemAddressVerified
  by_cases hr : recipients.isEmpty = true
  · simp [hr]
  · simp [hr, exploitedLoop_unresolved resolve exploited [] 0 s.infMap h]

/-- Witness of C4: a registered input whose script `[9]` has no destination. -/
theorem redeem_unresolved_exploited_false_witness :
    (∃ e ∈ [(⟨"tx1", [1], 500⟩ : RedeemData), ⟨"tx1", [9], 500⟩],
      exampleResolve e.scriptPubKey = none) ∧
    (RedeemAddressVerified exampleResolve scenarioState
      [⟨"tx1", [1], 500⟩, ⟨"tx1", [9], 500⟩] [⟨"", [2], 1000⟩]).verified = false :=
  ⟨⟨⟨"tx1", [9], 500⟩, by decide, by decide⟩,
   redeem_unresolved_exploited_false exampleResolve scenarioState _ _
     ⟨⟨"tx1", [9], 500⟩, by decide, by decide⟩⟩

/-- C5 as stated fails: the input `tx1` is registered, but for `addrA` only, so an input
of `tx1` paying from `addrB` gives `totalExploited = 0` and the call returns true although
the script `[9]` of its one recipient has no destination. -/
theorem redeem_unresolved_recipient_counterexample :
    (∃ r ∈ [(⟨"", [9], 1000⟩ : RedeemData)], exampleResolve r.scriptPubKey = none) ∧
    (RedeemAddressVerified exampleResolve scenarioState
      [⟨"tx1", [3], 500⟩] [⟨"", [9], 1000⟩]).verified = true :=
  ⟨⟨⟨"", [9], 1000⟩, by decide, by decide⟩, by decide⟩

/-- C5, amended: when the script of some recipient output has no destination,
`RedeemAddressVerified` returns true exactly when the loop over the exploited inputs ends
with `totalExploited = 0` (the recipients are then never inspected), and false in every
other case. -/
theorem redeem_unresolved_recipient {ops : DoubleOps}
    (resolve : CScript → Option String) (s : State ops)
    (exploited recipients : List RedeemData)
    (h : ∃ r ∈ recipients, resolve r.scriptPubKey = none) :
    ((RedeemAddressVerified resolve s exploited recipients).verified = true ↔
      (exploitedLoop resolve exploited [] 0 s.infMap).1 = some 0) := by
  have hne : recipients.isEmpty = false := by
    obtain ⟨r, hr, _⟩ := h
    cases recipients with
    | nil => simp at hr
    | cons _ _ => rfl
  unfold RedeemAddressVerified
  simp only [hne]
  cases hl : (exploitedLoop resolve exploited [] 0 s.infMap).1 with
  | none => simp
  | some t =>
    by_cases ht : t = 0
    · simp [ht]
    · simp [ht, redeemLoop_unresolved resolve recipients 0 h]

/-- Witness of C5 amended: one registered input of 1000 and a recipient without
destination next to a full payment; the call returns false. -/
theorem redeem_unresolved_recipient_witness :
    (∃ r ∈ [(⟨"", [2], 1000⟩ : RedeemData), ⟨"", [9], 1000⟩],
      exampleResolve r.scriptPubKey = none) ∧
    ¬ (RedeemAddressVerified exampleResolve scenarioState
      [⟨"tx1", [1], 500⟩] [⟨"", [2], 1000⟩, ⟨"", [9], 1000⟩]).verified = true :=
  ⟨⟨⟨"", [9], 1000⟩, by decide, by decide⟩,
   fun hv => absurd
     ((redeem_unresolved_recipient exampleResolve scenarioState _ _
       ⟨⟨"", [9], 1000⟩, by decide, by decide⟩).mp hv) (by decide)⟩

/-- C6 as stated fails for the empty recipients sequence: the input of `tx1` paying from
`addrB` is registered and resolvable and its exploited sum is 0, yet with no recipient the
call returns false. -/
theorem redeem_zero_exploited_counterexample :
    (∀ e ∈ [(⟨"tx1", [3], 500⟩ : RedeemData)], mapCount scenarioState.infMap e.txid ≠ 0) ∧
    (∀ e ∈ [(⟨"tx1", [3], 500⟩ : RedeemData)], exampleResolve e.scriptPubKey ≠ none) ∧
    specExploitedSum exampleResolve scenarioState.infMap [⟨"tx1", [3], 500⟩] = 0 ∧
    (RedeemAddressVerified exampleResolve scenarioState
      [⟨"tx1", [3], 500⟩] []).verified = false :=
  ⟨by decide, by decide, by decide, by decide⟩

/-- C6, amended: when the exploited inputs are all registered and resolvable, none of
their txids contains `-`, and the sum of the matching registry amounts over their distinct
(txid, address) pairs is 0, `RedeemAddressVerified` returns true for every non-empty
recipients sequence. -/
theorem redeem_zero_exploited_true {ops : DoubleOps} (resolve : CScript → Option String)
    (s : State ops) (exploited recipients : List RedeemData)
    (hne : recipients ≠ [])
    (hreg : ∀ e ∈ exploited, mapCount s.infMap e.txid ≠ 0)
    (hres : ∀ e ∈ exploited, resolve e.scriptPubKey ≠ none)
    (hdash : ∀ e ∈ exploited, '-' ∉ e.txid.data)
    (h0 : specExploitedSum resolve s.infMap exploited = 0) :
    (RedeemAddressVerified resolve s exploited recipients).verified = true := by
  have hemp : recipients.isEmpty = false := by
    cases recipients with
    | nil => exact absurd rfl hne
    | cons _ _ => rfl
  have hloop := exploitedLoop_eq_spec resolve s.infMap exploited hreg hres hdash
  rw [h0] at hloop
  unfold RedeemAddressVerified
  simp only [hemp, hloop]
  simp [wrapCAmount]

/-- Witness of C6 amended: the input of `tx1` paying from `addrB` has exploited sum 0; the
one recipient has no destination and pays nothing to the redemption address. -/
theorem redeem_zero_exploited_true_witness :
    ([(⟨"", [9], 0⟩ : RedeemData)] ≠ []) ∧
    (∀ e ∈ [(⟨"tx1", [3], 500⟩ : RedeemData)], mapCount scenarioState.infMap e.txid ≠ 0) ∧
    (∀ e ∈ [(⟨"tx1", [3], 500⟩ : RedeemData)], exampleResolve e.scriptPubKey ≠ none) ∧
    (∀ e ∈ [(⟨"tx1", [3], 500⟩ : RedeemData)], '-' ∉ e.txid.data) ∧
    specExploitedSum exampleResolve scenarioState.infMap [⟨"tx1", [3], 500⟩] = 0 ∧
    (RedeemAddressVerified exampleResolve scenarioState
      [⟨"tx1", [3], 500⟩] [⟨"", [9], 0⟩]).verified = true :=
  ⟨by decide, by decide, by decide, by decide, by decide,
   redeem_zero_exploited_true exampleResolve scenarioState [⟨"tx1", [3], 500⟩]
     [⟨"", [9], 0⟩] (by decide) (by decide) (by decide) (by decide) (by decide)⟩

/-- C7: two sequences of exploited inputs that agree, position by position, on txid and
scriptPubKey give the same result of `RedeemAddressVerified` (returned value, validator
and log), whatever amounts the inputs carry. -/
theorem redeem_input_amount_irrelevant {ops : DoubleOps}
    (resolve : CScript → Option String) (s : State ops)
    (exploited exploited1 recipients : List RedeemData)
    (h : exploited.map (fun e => (e.txid, e.scriptPubKey)) =
      exploited1.map (fun e => (e.txid, e.scriptPubKey))) :
    RedeemAddressVerified resolve s exploited recipients =
      RedeemAddressVerified resolve s exploited1 recipients := by
  unfold RedeemAddressVerified
  rw [exploitedLoop_amount_irrelevant resolve exploited exploited1 [] 0 s.infMap h]

/-- Witness of C7 (scenario A): the registry records 1000 for `tx1`/`addrA`; whether the
input carries 500 or 1000, a recipient paying 1000 to the redemption address is accepted. -/
theorem redeem_input_amount_irrelevant_witness :
    ([(⟨"tx1", [1], 500⟩ : RedeemData)].map (fun e => (e.txid, e.scriptPubKey)) =
      [(⟨"tx1", [1], 1000⟩ : RedeemData)].map (fun e => (e.txid, e.scriptPubKey))) ∧
    RedeemAddressVerified exampleResolve scenarioState [⟨"tx1", [1], 500⟩] [⟨"", [2], 1000⟩] =
      RedeemAddressVerified exampleResolve scenarioState [⟨"tx1", [1], 1000⟩]
        [⟨"", [2], 1000⟩] ∧
    (RedeemAddressVerified exampleResolve scenarioState
      [⟨"tx1", [1], 500⟩] [⟨"", [2], 1000⟩]).verified = true :=
  ⟨by decide,
   redeem_input_amount_irrelevant exampleResolve scenarioState [⟨"tx1", [1], 500⟩]
     [⟨"tx1", [1], 1000⟩] [⟨"", [2], 1000⟩] (by decide),
   by decide⟩

/-! ## Lemmas: loading -/

theorem mapFind_mapInsert {ops : DoubleOps} (k : String) (v : List (InfractionData ops))
    (m : InfMap ops) (q : String) (h : mapFind m k = none) :
    mapFind (mapInsert k v m) q = if q = k then some v else mapFind m q := by
  induction m with
  | nil =>
    by_cases hq : q = k
    · simp [mapInsert, mapFind, hq]
    · have hq1 : ¬ k = q := fun h => hq h.symm
      simp [mapInsert, mapFind, hq, hq1]
  | cons kv m ih =>
    obtain ⟨k1, v1⟩ := kv
    have hk1 : ¬ k1 = k := by
      intro hk
      simp [mapFind, hk] at h
    have hrest : mapFind m k = none := by
      simpa [mapFind, hk1] using h
    unfold mapInsert
    by_cases hl : keyLess k.data k1.data = true
    · simp only [hl, if_true]
      by_cases hq : q = k
      · simp [mapFind, hq]
      · have hq1 : ¬ k = q := fun h => hq h.symm
        simp [mapFind, hq, hq1]
    · simp only [hl]
      by_cases hq : q = k
      · subst hq
        have := ih hrest
        simp only [if_true] at this
        simp [mapFind, hk1, this]
      · have := ih hrest
        simp only [hq, if_false] at this
        by_cases hk1q : k1 = q
        · simp [mapFind, hk1q, hq]
        · simp [mapFind, hk1q, hq, this]

theorem mapFind_mapModify {ops : DoubleOps} (k : String)
    (f : List (InfractionData ops) → List (InfractionData ops)) (m : InfMap ops) (q : String) :
    mapFind (mapModify k f m) q = if q = k then (mapFind m k).map f else mapFind m q := by
  induction m with
  | nil => simp [mapModify, mapFind]
  | cons kv m ih =>
    obtain ⟨k1, v1⟩ := kv
    unfold mapModify
    by_cases hk : k1 = k
    · subst hk
      by_cases hq : q = k1
      · subst hq; simp [mapFind]
      · have hq1 : ¬ k1 = q := fun h => hq h.symm
        simp [mapFind, hq, hq1]
    · simp only [hk, if_false]
      by_cases hq : q = k
      · subst hq
        simp only [if_true] at ih
        simp [mapFind, hk, ih]
      · simp only [hq, if_false] at ih
        by_cases hk1q : k1 = q
        · simp [mapFind, hk1q, hq]
        · simp [mapFind, hk1q, hq, ih]

/-- The map after `map[k].push_back(x)`. -/
theorem mapFind_push_back {ops : DoubleOps} (k : String) (x : InfractionData ops)
    (m : InfMap ops) (q : String) :
    mapFind (mapModify k (fun v => v ++ [x]) (mapIndex m k).2) q =
      if q = k then some (registryRecords m k ++ [x]) else mapFind m q := by
  rw [mapFind_mapModify]
  unfold mapIndex registryRecords
  cases hf : mapFind m k with
  | some v =>
    by_cases hq : q = k
    · simp [hq, hf]
    · simp [hq]
  | none =>
    simp only [Option.getD_none, List.nil_append]
    rw [mapFind_mapInsert k [] m k hf, mapFind_mapInsert k [] m q hf]
    by_cases hq : q = k
    · simp [hq]
    · simp [hq]

theorem addLine_of_accepted {ops : DoubleOps} (line : String) (m : InfMap ops)
    (h : lineAccepted ops line = true) :
    addLine line m = .returned (true,
      mapModify (parsedRecord ops line).txid (fun v => v ++ [parsedRecord ops line])
        (mapIndex m (parsedRecord ops line).txid).2) ∧
    line = InfractionData.ToString (parsedRecord ops line) := by
  unfold lineAccepted addLine at h
  unfold addLine parsedRecord InfractionData.ToString
  simp only at h ⊢
  split_ifs at h ⊢ with h1 h2
  exact ⟨rfl, not_not.mp h2⟩

theorem loadLines_of_accepted {ops : DoubleOps} (D : List String) :
    ∀ (m : InfMap ops), (∀ line ∈ D, lineAccepted ops line = true) →
    ∃ m1, loadLines D m = .returned m1 ∧
      ∀ q, mapFind m1 q =
        if ((D.map (parsedRecord ops)).filter (fun r => r.txid = q)).isEmpty then mapFind m q
        else some (registryRecords m q ++
          (D.map (parsedRecord ops)).filter (fun r => r.txid = q)) := by
  induction D with
  | nil =>
    intro m _
    exact ⟨m, rfl, fun q => by simp⟩
  | cons line D ih =>
    intro m h
    have hline := (addLine_of_accepted line m (h line (List.mem_cons_self _ _))).1
    obtain ⟨m1, hm1, hfind⟩ := ih
      (mapModify (parsedRecord ops line).txid (fun v => v ++ [parsedRecord ops line])
        (mapIndex m (parsedRecord ops line).txid).2)
      (fun l hl => h l (List.mem_cons_of_mem _ hl))
    refine ⟨m1, ?_, ?_⟩
    · unfold loadLines
      rw [hline]
      exact hm1
    · intro q
      rw [hfind q]
      unfold registryRecords
      rw [mapFind_push_back]
      by_cases hq : q = (parsedRecord ops line).txid
      · have hq1 : (parsedRecord ops line).txid = q := hq.symm
        subst hq
        by_cases he : ((D.map (parsedRecord ops)).filter
            (fun r => r.txid = (parsedRecord ops line).txid)).isEmpty = true
        · have he1 := List.isEmpty_iff.mp he
          simp [List.filter_cons, he1, registryRecords]
        · simp [List.filter_cons, he, registryRecords]
      · have hq1 : ¬ (parsedRecord ops line).txid = q := fun h => hq h.symm
        simp [List.filter_cons, hq, hq1]

theorem getString_no_space (is : IStream) (str : String)
    (h : ∀ c ∈ str.data, isSpace c = false) :
    ∀ c ∈ (getString is str).1.data, isSpace c = false := by
  unfold getString
  cases hs : sentry is with
  | mk ok is1 =>
    cases ok with
    | false => simpa using h
    | true =>
      intro c hc
      simp only at hc
      have := List.mem_takeWhile_imp hc
      simpa using this

theorem takeWhile_ne_append (c : Char) (l r : List Char) (h : c ∉ l) :
    (l ++ c :: r).takeWhile (fun x => x ≠ c) = l := by
  induction l with
  | nil => simp [List.takeWhile]
  | cons a l ih =>
    have ha : a ≠ c := fun e => h (e ▸ List.mem_cons_self _ _)
    have hl : c ∉ l := fun hm => h (List.mem_cons_of_mem _ hm)
    have ih1 := ih hl
    simp only [List.cons_append, List.takeWhile_cons, ne_eq, ha, not_false_eq_true,
      decide_True, if_true, List.cons.injEq, true_and]
    exact ih1

theorem lineTxid_of_accepted {ops : DoubleOps} (line : String)
    (h : lineAccepted ops line = true) : (parsedRecord ops line).txid = lineTxid line := by
  have hser := (addLine_of_accepted line ([] : InfMap ops) h).2
  have hns : ∀ c ∈ (parsedRecord ops line).txid.data, isSpace c = false := by
    unfold parsedRecord parseLine
    exact getString_no_space _ _ (by simp)
  have htab : '\t' ∉ (parsedRecord ops line).txid.data := by
    intro hm
    have := hns _ hm
    simp [isSpace] at this
  unfold lineTxid
  apply String.ext
  have hd : line.data = (parsedRecord ops line).txid.data ++
      '\t' :: ((parsedRecord ops line).address ++ "\t" ++ to_string (parsedRecord ops line).amount
        ++ "\t" ++ AmountToString ops (parsedRecord ops line).amountH).data := by
    have := congrArg String.data hser
    rw [this]
    simp [InfractionData.ToString, String.data_append]
  rw [hd, takeWhile_ne_append _ _ _ htab]

/-! ## Claims about the registry -/

/-- C8 fails on the code: from the initial validator, on which `Load` was never called,
`GetInfractions(t)` returns no record, and afterwards, in a reachable state that still
holds no record for `t`, `IsCoinValid(t)` is false, because `infMap[t]` has inserted
the key `t` with an empty vector. Before the lookup `IsCoinValid(t)` was true. -/
theorem isCoinValid_false_after_lookup :
    Reachable exampleResolve (GetInfractions (State.initial decimalOps) exampleTxId).2 ∧
    IsLoaded (GetInfractions (State.initial decimalOps) exampleTxId).2 = false ∧
    (GetInfractions (State.initial decimalOps) exampleTxId).1.length = 0 ∧
    (GetInfractions (GetInfractions (State.initial decimalOps) exampleTxId).2
      exampleTxId).1.length = 0 ∧
    IsCoinValid (State.initial decimalOps) exampleTxId = true ∧
    IsCoinValid (GetInfractions (State.initial decimalOps) exampleTxId).2 exampleTxId
      = false :=
  ⟨Reachable.getInfractions exampleTxId Reachable.initial,
   by decide, by decide, by decide, by decide, by decide⟩

/-- C9: when `Load` runs on a validator that is not loaded, with a dataset in which every
line is well formed, it returns true, and afterwards `IsCoinValid(t)` is false exactly
for the transaction ids `t` that are the txid field of some line of the dataset. -/
theorem load_then_isCoinValid {ops : DoubleOps} (dataset : List String) (s : State ops)
    (hs : s.infMapLoaded = false)
    (hwf : ∀ line ∈ dataset, lineAccepted ops line = true) :
    ∃ s1, LoadStaticFrom dataset s = .returned (true, s1) ∧
      ∀ t, (IsCoinValid s1 t = false ↔ ∃ line ∈ dataset, lineTxid line = t) := by
  obtain ⟨m1, hm1, hfind⟩ := loadLines_of_accepted dataset ([] : InfMap ops) hwf
  refine ⟨{ infMap := m1, infMapLoaded := true }, ?_, ?_⟩
  · unfold LoadStaticFrom
    simp [hs, hm1]
  · intro t
    have hiff : (∃ line ∈ dataset, lineTxid line = t) ↔
        ¬ ((dataset.map (parsedRecord ops)).filter (fun r => r.txid = t)).isEmpty = true := by
      rw [List.isEmpty_iff]
      constructor
      · rintro ⟨line, hl, ht⟩
        have hmem : parsedRecord ops line ∈
            (dataset.map (parsedRecord ops)).filter (fun r => r.txid = t) := by
          rw [List.mem_filter]
          refine ⟨List.mem_map_of_mem _ hl, ?_⟩
          rw [lineTxid_of_accepted line (hwf line hl), ht]
          simp
        exact List.ne_nil_of_mem hmem
      · intro hne
        obtain ⟨b, hb⟩ := List.exists_mem_of_ne_nil _ hne
        rw [List.mem_filter] at hb
        obtain ⟨hb1, hb2⟩ := hb
        obtain ⟨line, hl, rfl⟩ := List.mem_map.mp hb1
        refine ⟨line, hl, ?_⟩
        rw [← lineTxid_of_accepted line (hwf line hl)]
        simpa using hb2
    rw [hiff]
    unfold IsCoinValid mapCount
    simp only
    rw [hfind t]
    by_cases he : ((dataset.map (parsedRecord ops)).filter (fun r => r.txid = t)).isEmpty = true
    · simp [he, mapFind]
    · simp [he]

/-- Witness of C9: the example dataset loaded into the initial validator. -/
theorem load_then_isCoinValid_witness :
    (State.initial decimalOps).infMapLoaded = false ∧
    (∀ line ∈ exampleDataset, lineAccepted decimalOps line = true) ∧
    ∃ s1, LoadStaticFrom exampleDataset (State.initial decimalOps) = .returned (true, s1) ∧
      ∀ t, (IsCoinValid s1 t = false ↔ ∃ line ∈ exampleDataset, lineTxid line = t) :=
  ⟨rfl, by decide,
   load_then_isCoinValid exampleDataset (State.initial decimalOps) rfl (by decide)⟩

/-- C10: on a validator that is already loaded, `Load` returns false and leaves the
mapping and the loaded flag as they were, whatever the dataset is. -/
theorem load_when_loaded {ops : DoubleOps} (dataset : List String) (s : State ops)
    (h : s.infMapLoaded = true) :
    LoadStaticFrom dataset s = .returned (false, s) := by
  unfold LoadStaticFrom
  simp [h]

/-- Witness of C10: the loaded registry of the scenarios, asked to load the example
dataset. -/
theorem load_when_loaded_witness :
    scenarioState.infMapLoaded = true ∧
    LoadStaticFrom exampleDataset scenarioState = .returned (false, scenarioState) :=
  ⟨rfl, load_when_loaded exampleDataset scenarioState rfl⟩

/-! ## Lemmas: lookups -/

theorem scanRecords_eq {ops : DoubleOps} (address : String)
    (recs infs : List (InfractionData ops)) :
    scanRecords address recs infs = infs ++ recs.filter (fun inf => inf.address = address) := by
  induction recs generalizing infs with
  | nil => simp [scanRecords]
  | cons r recs ih =>
    unfold scanRecords
    rw [ih]
    by_cases h : r.address = address
    · simp [h, List.filter_cons]
    · simp [h, List.filter_cons]

theorem scanItems_eq {ops : DoubleOps} (address : String) (m : InfMap ops)
    (infs : List (InfractionData ops)) :
    scanItems address m infs =
      infs ++ (storedRecords m).filter (fun inf => inf.address = address) := by
  induction m generalizing infs with
  | nil => simp [scanItems, storedRecords]
  | cons item m ih =>
    unfold scanItems
    rw [ih, scanRecords_eq]
    simp [storedRecords, List.filter_append]

theorem parsedRecord_filter {ops : DoubleOps} (dataset : List String) (t : String)
    (hwf : ∀ line ∈ dataset, lineAccepted ops line = true) :
    (dataset.map (parsedRecord ops)).filter (fun r => r.txid = t) =
      (dataset.filter (fun line => lineTxid line = t)).map (parsedRecord ops) := by
  induction dataset with
  | nil => rfl
  | cons line dataset ih =>
    have h1 := lineTxid_of_accepted line (hwf line (List.mem_cons_self _ _))
    have ih1 := ih (fun l hl => hwf l (List.mem_cons_of_mem _ hl))
    by_cases ht : lineTxid line = t
    · have ht1 : (parsedRecord ops line).txid = t := by rw [h1, ht]
      simp only [List.map_cons, List.filter_cons, ht, ht1, decide_True, if_true, ih1]
    · have ht1 : ¬ (parsedRecord ops line).txid = t := by rw [h1]; exact ht
      simp only [List.map_cons, List.filter_cons, ht, ht1, decide_False, ih1]
      simp

/-! ## Claims about the registry, continued -/

/-- C11: on the state `Clear` leaves, whatever the state before, `IsLoaded` returns false,
`GetInfractions(t)` is empty for every transaction id, `GetInfractions(a)` is empty for
every address, and `IsCoinValid(t)` is true for every transaction id. -/
theorem clear_resets {ops : DoubleOps} (s : State ops) :
    IsLoaded (Clear s) = false ∧
    (∀ t, (GetInfractions (Clear s) t).1 = []) ∧
    (∀ a, GetInfractionsByAddress (Clear s) a = []) ∧
    (∀ t, IsCoinValid (Clear s) t = true) := by
  refine ⟨rfl, ?_, ?_, ?_⟩
  · intro t
    simp [GetInfractions, Clear, mapIndex, mapFind]
  · intro a
    simp [GetInfractionsByAddress, Clear, scanItems]
  · intro t
    simp [IsCoinValid, Clear, mapCount, mapFind]

/-! ## Lemmas: the loaded flag -/

theorem LoadStaticFrom_returned {ops : DoubleOps} (dataset : List String) (s s1 : State ops)
    (b : Bool) (h : LoadStaticFrom dataset s = .returned (b, s1)) :
    b = !s.infMapLoaded ∧ s1.infMapLoaded = true := by
  unfold LoadStaticFrom at h
  cases hl : s.infMapLoaded with
  | true =>
    simp only [hl, if_true, Outcome.returned.injEq, Prod.mk.injEq] at h
    obtain ⟨hb, hs⟩ := h
    subst hs
    exact ⟨by simp [← hb], hl⟩
  | false =>
    simp only [hl, Bool.false_eq_true, if_false] at h
    cases hm : loadLines dataset ([] : InfMap ops) with
    | aborted => simp [hm] at h
    | returned m =>
      simp only [hm, Outcome.returned.injEq, Prod.mk.injEq] at h
      obtain ⟨hb, hs⟩ := h
      subst hs
      exact ⟨by simp [← hb], rfl⟩

theorem applyOp_keeps_loaded {ops : DoubleOps} (resolve : CScript → Option String)
    (op : Op) (s s1 : State ops) (r : Option Bool) (hop : op ≠ Op.clear)
    (h : applyOp resolve s op = .returned (r, s1)) (hl : s.infMapLoaded = true) :
    s1.infMapLoaded = true := by
  cases op with
  | clear => exact absurd rfl hop
  | load dataset =>
    unfold applyOp at h
    cases hL : LoadStaticFrom dataset s with
    | aborted => simp [hL] at h
    | returned p =>
      obtain ⟨b, s2⟩ := p
      simp only [hL, Outcome.returned.injEq, Prod.mk.injEq] at h
      rw [← h.2]
      exact (LoadStaticFrom_returned dataset s s2 b hL).2
  | isLoaded =>
    simp only [applyOp, Outcome.returned.injEq, Prod.mk.injEq] at h
    rw [← h.2]; exact hl
  | isCoinValid t =>
    simp only [applyOp, Outcome.returned.injEq, Prod.mk.injEq] at h
    rw [← h.2]; exact hl
  | getInfractions t =>
    simp only [applyOp, Outcome.returned.injEq, Prod.mk.injEq] at h
    rw [← h.2]; exact hl
  | getInfractionsByAddress a =>
    simp only [applyOp, Outcome.returned.injEq, Prod.mk.injEq] at h
    rw [← h.2]; exact hl
  | redeemAddressVerified exploited recipients =>
    simp only [applyOp, Outcome.returned.injEq, Prod.mk.injEq] at h
    rw [← h.2]
    unfold RedeemAddressVerified
    simp only
    split_ifs <;> try exact hl
    all_goals (split <;> try exact hl)
    all_goals (split_ifs <;> try exact hl)
    all_goals (split <;> try exact hl)
    all_goals (split_ifs <;> exact hl)

theorem applyOp_result {ops : DoubleOps} (resolve : CScript → Option String)
    (op : Op) (s s1 : State ops) (b : Bool)
    (h : applyOp resolve s op = .returned (some b, s1)) :
    b = !s.infMapLoaded ∧ s1.infMapLoaded = true := by
  cases op with
  | load dataset =>
    unfold applyOp at h
    cases hL : LoadStaticFrom dataset s with
    | aborted => simp [hL] at h
    | returned p =>
      obtain ⟨b2, s2⟩ := p
      simp only [hL, Outcome.returned.injEq, Prod.mk.injEq, Option.some.injEq] at h
      rw [← h.1, ← h.2]
      exact LoadStaticFrom_returned dataset s s2 b2 hL
  | clear => simp [applyOp] at h
  | isLoaded => simp [applyOp] at h
  | isCoinValid t => simp [applyOp] at h
  | getInfractions t => simp [applyOp] at h
  | getInfractionsByAddress a => simp [applyOp] at h
  | redeemAddressVerified exploited recipients => simp [applyOp] at h

theorem runOps_count {ops : DoubleOps} (resolve : CScript → Option String) (run : List Op) :
    ∀ (s s1 : State ops) (bs : List Bool), Op.clear ∉ run →
    runOps resolve run s = .returned (bs, s1) →
    bs.count true ≤ (if s.infMapLoaded then 0 else 1) := by
  induction run with
  | nil =>
    intro s s1 bs _ h
    simp only [runOps, Outcome.returned.injEq, Prod.mk.injEq] at h
    rw [← h.1]
    simp
  | cons op run ih =>
    intro s s1 bs hc h
    have hop : op ≠ Op.clear := fun e => hc (e ▸ List.mem_cons_self _ _)
    have hrun : Op.clear ∉ run := fun hm => hc (List.mem_cons_of_mem _ hm)
    unfold runOps at h
    cases ha : applyOp resolve s op with
    | aborted => simp [ha] at h
    | returned p =>
      obtain ⟨r, s2⟩ := p
      simp only [ha] at h
      cases hr : runOps resolve run s2 with
      | aborted => simp [hr] at h
      | returned q =>
        obtain ⟨bs2, s3⟩ := q
        simp only [hr, Outcome.returned.injEq, Prod.mk.injEq] at h
        have ih1 := ih s2 s3 bs2 hrun hr
        rw [← h.1]
        cases r with
        | none =>
          simp only [Option.toList, List.nil_append]
          cases hl : s.infMapLoaded with
          | true =>
            have := applyOp_keeps_loaded resolve op s s2 none hop ha hl
            simpa [this] using ih1
          | false =>
            simp only [Bool.false_eq_true, if_false]
            split_ifs at ih1 <;> omega
        | some b =>
          obtain ⟨hb, hl2⟩ := applyOp_result resolve op s s2 b ha
          simp only [hl2, if_true, Nat.le_zero_eq] at ih1
          simp only [Option.toList, List.singleton_append, List.count_cons, ih1, zero_add]
          cases hl : s.infMapLoaded with
          | true => simp [hb, hl]
          | false => simp [hb, hl]

/-- C12: a `Load` call that completes returns true exactly when `IsLoaded` was false before
it, and `IsLoaded` is true after it; no operation other than `Clear` takes `IsLoaded` from
true to false; so in a run of operations without `Clear` at most one `Load` returns true;
and `Load` directly after `Clear` returns true (every such call that completes does, and
the call on the built-in dataset completes). -/
theorem load_clear_state_machine {ops : DoubleOps} (resolve : CScript → Option String) :
    (∀ (dataset : List String) (s s1 : State ops) (b : Bool),
      LoadStaticFrom dataset s = .returned (b, s1) →
        ((b = true ↔ IsLoaded s = false) ∧ IsLoaded s1 = true)) ∧
    (∀ (op : Op) (s s1 : State ops) (r : Option Bool), op ≠ Op.clear →
      applyOp resolve s op = .returned (r, s1) → IsLoaded s = true → IsLoaded s1 = true) ∧
    (∀ (run : List Op) (s s1 : State ops) (bs : List Bool), Op.clear ∉ run →
      runOps resolve run s = .returned (bs, s1) → bs.count true ≤ 1) ∧
    (∀ s : State ops, ∃ s1, LoadStatic (Clear s) = .returned (true, s1)) ∧
    (∀ (dataset : List String) (s s1 : State ops) (b : Bool),
      LoadStaticFrom dataset (Clear s) = .returned (b, s1) → b = true) := by
  refine ⟨?_, ?_, ?_, ?_, ?_⟩
  · intro dataset s s1 b h
    obtain ⟨hb, hl⟩ := LoadStaticFrom_returned dataset s s1 b h
    refine ⟨?_, hl⟩
    unfold IsLoaded
    rw [hb]
    cases s.infMapLoaded <;> simp
  · intro op s s1 r hop h hl
    exact applyOp_keeps_loaded resolve op s s1 r hop h hl
  · intro run s s1 bs hc h
    have := runOps_count resolve run s s1 bs hc h
    split_ifs at this <;> omega
  · intro s
    exact ⟨_, rfl⟩
  · intro dataset s s1 b h
    have := (LoadStaticFrom_returned dataset (Clear s) s1 b h).1
    simpa [Clear] using this

/-- Witness of C12: from the initial validator, three `Load` calls with lookups between
them and no `Clear`; the run completes and only the first `Load` returns true. -/
theorem load_clear_state_machine_witness :
    Op.clear ∉ [Op.load exampleDataset, Op.getInfractions exampleTxId, Op.load [],
      Op.isLoaded, Op.load exampleDataset] ∧
    (∃ s1, runOps exampleResolve
      [Op.load exampleDataset, Op.getInfractions exampleTxId, Op.load [],
        Op.isLoaded, Op.load exampleDataset]
      (State.initial decimalOps) = .returned ([true, false, false], s1)) ∧
    [true, false, false].count true ≤ 1 :=
  ⟨by decide, ⟨_, rfl⟩,
   (load_clear_state_machine exampleResolve).2.2.1
     [Op.load exampleDataset, Op.getInfractions exampleTxId, Op.load [],
       Op.isLoaded, Op.load exampleDataset]
     (State.initial decimalOps) _ [true, false, false] (by decide) rfl⟩

/-- C13: when `Load` runs on a validator that is not loaded, with a dataset of well-formed
lines, it returns true and afterwards, for every transaction id `t`, `GetInfractions(t)`
is the sequence of the records parsed from the lines whose txid field is `t`, in the order
of the lines; it is empty when no line has the txid field `t`. -/
theorem load_then_getInfractions {ops : DoubleOps} (dataset : List String) (s : State ops)
    (hs : s.infMapLoaded = false)
    (hwf : ∀ line ∈ dataset, lineAccepted ops line = true) :
    ∃ s1, LoadStaticFrom dataset s = .returned (true, s1) ∧
      (∀ t, (GetInfractions s1 t).1 =
        (dataset.filter (fun line => lineTxid line = t)).map (parsedRecord ops)) ∧
      (∀ t, (∀ line ∈ dataset, lineTxid line ≠ t) → (GetInfractions s1 t).1 = []) := by
  obtain ⟨m1, hm1, hfind⟩ := loadLines_of_accepted dataset ([] : InfMap ops) hwf
  have hget : ∀ t, (GetInfractions ({ infMap := m1, infMapLoaded := true } : State ops) t).1 =
      (dataset.filter (fun line => lineTxid line = t)).map (parsedRecord ops) := by
    intro t
    rw [← parsedRecord_filter dataset t hwf]
    unfold GetInfractions mapIndex
    simp only
    rw [hfind t]
    by_cases he : ((dataset.map (parsedRecord ops)).filter (fun r => r.txid = t)).isEmpty = true
    · have he1 := List.isEmpty_iff.mp he
      simp [he1, mapFind]
    · simp [he, registryRecords, mapFind]
  refine ⟨{ infMap := m1, infMapLoaded := true }, ?_, hget, ?_⟩
  · unfold LoadStaticFrom
    simp [hs, hm1]
  · intro t hno
    rw [hget t]
    have : dataset.filter (fun line => lineTxid line = t) = [] := by
      rw [List.filter_eq_nil_iff]
      intro line hl
      simpa using hno line hl
    rw [this]
    rfl

/-- Witness of C13: the example dataset loaded into the initial validator; its first and
third lines are the two records of `tx1`, in that order. -/
theorem load_then_getInfractions_witness :
    (State.initial decimalOps).infMapLoaded = false ∧
    (∀ line ∈ exampleDataset, lineAccepted decimalOps line = true) ∧
    (exampleDataset.filter (fun line => lineTxid line = "tx1")
      = ["tx1\taddrA\t1000\t1000.000000", "tx1\taddrB\t250\t2.500000"]) ∧
    ∃ s1, LoadStaticFrom exampleDataset (State.initial decimalOps) = .returned (true, s1) ∧
      (∀ t, (GetInfractions s1 t).1 =
        (exampleDataset.filter (fun line => lineTxid line = t)).map (parsedRecord decimalOps)) ∧
      (∀ t, (∀ line ∈ exampleDataset, lineTxid line ≠ t) → (GetInfractions s1 t).1 = []) :=
  ⟨rfl, by decide, by decide,
   load_then_getInfractions exampleDataset (State.initial decimalOps) rfl (by decide)⟩

/-- C14: for every state and address `a`, `GetInfractions(a)` is the sequence of the stored
records, over all transaction ids, whose address is `a`: every returned record has address
`a`, every stored record with address `a` is returned as many times as it is stored
(counted under any test `p`), and the length is the number of stored records with
address `a`. -/
theorem getInfractionsByAddress_exact {ops : DoubleOps} (s : State ops) (a : String) :
    GetInfractionsByAddress s a =
      (storedRecords s.infMap).filter (fun inf => inf.address = a) ∧
    (∀ inf ∈ GetInfractionsByAddress s a, inf.address = a) ∧
    (∀ p : InfractionData ops → Bool,
      (GetInfractionsByAddress s a).countP p =
        (storedRecords s.infMap).countP (fun inf => decide (inf.address = a) && p inf)) ∧
    (GetInfractionsByAddress s a).length =
      (storedRecords s.infMap).countP (fun inf => inf.address = a) := by
  have h : GetInfractionsByAddress s a =
      (storedRecords s.infMap).filter (fun inf => inf.address = a) := by
    unfold GetInfractionsByAddress
    rw [scanItems_eq]
    rfl
  refine ⟨h, ?_, ?_, ?_⟩
  · intro inf hinf
    rw [h, List.mem_filter] at hinf
    simpa using hinf.2
  · intro p
    rw [h, List.countP_filter]
    congr 1
    funext inf
    exact Bool.and_comm _ _
  · rw [h, List.countP_eq_length_filter]

/-! ## Lemmas: `addLine` on each kind of line -/

theorem addLine_of_empty_or_zero {ops : DoubleOps} (line : String) (m : InfMap ops)
    (h : (parsedRecord ops line).txid = "" ∨ (parsedRecord ops line).address = "" ∨
      (parsedRecord ops line).amount = 0 ∨ ops.isZero (parsedRecord ops line).amountH = true) :
    addLine line m = .returned (false, m) := by
  unfold parsedRecord at h
  simp only at h
  unfold addLine
  simp only
  have hc : ((parseLine ops line).1.isEmpty || (parseLine ops line).2.1.isEmpty ||
      (parseLine ops line).2.2.1 == 0 || ops.isZero (parseLine ops line).2.2.2) = true := by
    simp only [Bool.or_eq_true, String.isEmpty_iff, beq_iff_eq]
    tauto
  rw [if_pos hc]

theorem addLine_of_mismatch {ops : DoubleOps} (line : String) (m : InfMap ops)
    (h0 : ¬ ((parsedRecord ops line).txid = "" ∨ (parsedRecord ops line).address = "" ∨
      (parsedRecord ops line).amount = 0 ∨ ops.isZero (parsedRecord ops line).amountH = true))
    (h : InfractionData.ToString (parsedRecord ops line) ≠ line) :
    addLine line m = .aborted := by
  unfold parsedRecord at h0 h
  unfold InfractionData.ToString at h
  simp only at h0 h
  unfold addLine
  simp only
  have hc : ¬ ((parseLine ops line).1.isEmpty || (parseLine ops line).2.1.isEmpty ||
      (parseLine ops line).2.2.1 == 0 || ops.isZero (parseLine ops line).2.2.2) = true := by
    intro hc
    apply h0
    simp only [Bool.or_eq_true, String.isEmpty_iff, beq_iff_eq] at hc
    tauto
  rw [if_neg hc, if_pos (fun e => h e.symm)]

theorem lineAccepted_iff {ops : DoubleOps} (line : String) :
    lineAccepted ops line = true ↔
      (recordValid (parsedRecord ops line) ∧
        InfractionData.ToString (parsedRecord ops line) = line) := by
  constructor
  · intro h
    refine ⟨?_, (addLine_of_accepted line ([] : InfMap ops) h).2.symm⟩
    by_contra hv
    have h0 : (parsedRecord ops line).txid = "" ∨ (parsedRecord ops line).address = "" ∨
        (parsedRecord ops line).amount = 0 ∨
        ops.isZero (parsedRecord ops line).amountH = true := by
      unfold recordValid at hv
      by_contra hn
      apply hv
      refine ⟨fun e => hn (Or.inl e), fun e => hn (Or.inr (Or.inl e)),
        fun e => hn (Or.inr (Or.inr (Or.inl e))), ?_⟩
      cases hz : ops.isZero (parsedRecord ops line).amountH with
      | false => rfl
      | true => exact absurd (Or.inr (Or.inr (Or.inr hz))) hn
    have := addLine_of_empty_or_zero line ([] : InfMap ops) h0
    unfold lineAccepted at h
    rw [this] at h
    simp at h
  · rintro ⟨hv, hser⟩
    obtain ⟨h1, h2, h3, h4⟩ := hv
    unfold parsedRecord at h1 h2 h3 h4
    unfold parsedRecord InfractionData.ToString at hser
    simp only at h1 h2 h3 h4 hser
    unfold lineAccepted addLine
    simp only
    have hc : ¬ ((parseLine ops line).1.isEmpty || (parseLine ops line).2.1.isEmpty ||
        (parseLine ops line).2.2.1 == 0 || ops.isZero (parseLine ops line).2.2.2) = true := by
      simp only [Bool.or_eq_true, String.isEmpty_iff, beq_iff_eq, h4]
      tauto
    rw [if_neg hc, if_neg (fun hne => hne hser.symm)]

theorem addLine_accepted_of_returned_true {ops : DoubleOps} (line : String)
    (m m1 : InfMap ops) (h : addLine line m = .returned (true, m1)) :
    lineAccepted ops line = true := by
  by_contra hna
  have hnot : ¬ (recordValid (parsedRecord ops line) ∧
      InfractionData.ToString (parsedRecord ops line) = line) :=
    fun hv => hna ((lineAccepted_iff line).mpr hv)
  by_cases h0 : (parsedRecord ops line).txid = "" ∨ (parsedRecord ops line).address = "" ∨
      (parsedRecord ops line).amount = 0 ∨ ops.isZero (parsedRecord ops line).amountH = true
  · rw [addLine_of_empty_or_zero line m h0] at h
    simp at h
  · have hser : InfractionData.ToString (parsedRecord ops line) ≠ line := by
      intro hser
      apply hnot
      refine ⟨⟨fun e => h0 (Or.inl e), fun e => h0 (Or.inr (Or.inl e)),
        fun e => h0 (Or.inr (Or.inr (Or.inl e))), ?_⟩, hser⟩
      cases hz : ops.isZero (parsedRecord ops line).amountH with
      | false => rfl
      | true => exact absurd (Or.inr (Or.inr (Or.inr hz))) h0
    rw [addLine_of_mismatch line m h0 hser] at h
    cases h

theorem loadLines_aborts {ops : DoubleOps} (dataset : List String) :
    ∀ m : InfMap ops, (∃ line ∈ dataset, lineAccepted ops line = false) →
    loadLines dataset m = .aborted := by
  induction dataset with
  | nil => intro m h; simp at h
  | cons line dataset ih =>
    intro m h
    unfold loadLines
    cases ha : addLine line m with
    | aborted => rfl
    | returned p =>
      obtain ⟨b, m1⟩ := p
      cases b with
      | false => rfl
      | true =>
        have hacc := addLine_accepted_of_returned_true line m m1 ha
        simp only
        apply ih
        obtain ⟨l, hl, hf⟩ := h
        rcases List.mem_cons.mp hl with rfl | hl
        · rw [hacc] at hf; cases hf
        · exact ⟨l, hl, hf⟩

/-! ## Lemmas: the entries of the map -/

theorem mem_mapInsert {ops : DoubleOps} (k : String) (v : List (InfractionData ops))
    (m : InfMap ops) (kv : String × List (InfractionData ops)) :
    kv ∈ mapInsert k v m ↔ kv = (k, v) ∨ kv ∈ m := by
  induction m with
  | nil => simp [mapInsert]
  | cons e m ih =>
    obtain ⟨k1, v1⟩ := e
    unfold mapInsert
    by_cases hl : keyLess k.data k1.data = true
    · simp [hl]
    · simp only [hl, List.mem_cons, ih]
      simp only [Bool.false_eq_true, if_false, List.mem_cons, ih]
      tauto

theorem mem_mapModify {ops : DoubleOps} (k : String)
    (f : List (InfractionData ops) → List (InfractionData ops)) (m : InfMap ops)
    (kv : String × List (InfractionData ops)) (h : kv ∈ mapModify k f m) :
    kv ∈ m ∨ ∃ v, (k, v) ∈ m ∧ kv = (k, f v) := by
  induction m with
  | nil => simp [mapModify] at h
  | cons e m ih =>
    obtain ⟨k1, v1⟩ := e
    unfold mapModify at h
    by_cases hk : k1 = k
    · subst hk
      simp only [if_true, List.mem_cons] at h
      rcases h with h | h
      · exact Or.inr ⟨v1, List.mem_cons_self _ _, h⟩
      · exact Or.inl (List.mem_cons_of_mem _ h)
    · simp only [hk, if_false, List.mem_cons] at h
      rcases h with h | h
      · exact Or.inl (h ▸ List.mem_cons_self _ _)
      · rcases ih h with h1 | ⟨v, hv, he⟩
        · exact Or.inl (List.mem_cons_of_mem _ h1)
        · exact Or.inr ⟨v, List.mem_cons_of_mem _ hv, he⟩

theorem mapIndex_entries {ops : DoubleOps} (Q : String → InfractionData ops → Prop)
    (m : InfMap ops) (k : String) (h : ∀ kv ∈ m, ∀ r ∈ kv.2, Q kv.1 r) :
    ∀ kv ∈ (mapIndex m k).2, ∀ r ∈ kv.2, Q kv.1 r := by
  unfold mapIndex
  cases hf : mapFind m k with
  | some v => exact h
  | none =>
    intro kv hkv r hr
    rcases (mem_mapInsert k [] m kv).mp hkv with rfl | hm
    · simp at hr
    · exact h kv hm r hr

theorem push_back_entries {ops : DoubleOps} (Q : String → InfractionData ops → Prop)
    (m : InfMap ops) (x : InfractionData ops) (k : String)
    (h : ∀ kv ∈ m, ∀ r ∈ kv.2, Q kv.1 r) (hx : Q k x) :
    ∀ kv ∈ mapModify k (fun v => v ++ [x]) (mapIndex m k).2, ∀ r ∈ kv.2, Q kv.1 r := by
  intro kv hkv r hr
  have h1 := mapIndex_entries Q m k h
  rcases mem_mapModify k _ _ kv hkv with hm | ⟨v, hv, rfl⟩
  · exact h1 kv hm r hr
  · simp only [List.mem_append, List.mem_singleton] at hr
    rcases hr with hr | rfl
    · exact h1 (k, v) hv r hr
    · exact hx

theorem loadLines_entries {ops : DoubleOps} (Q : String → InfractionData ops → Prop)
    (lines : List String) :
    ∀ m m1 : InfMap ops, loadLines lines m = .returned m1 →
    (∀ kv ∈ m, ∀ r ∈ kv.2, Q kv.1 r) →
    (∀ line ∈ lines, lineAccepted ops line = true →
      Q (parsedRecord ops line).txid (parsedRecord ops line)) →
    ∀ kv ∈ m1, ∀ r ∈ kv.2, Q kv.1 r := by
  induction lines with
  | nil =>
    intro m m1 h hm _
    simp only [loadLines, Outcome.returned.injEq] at h
    rw [← h]; exact hm
  | cons line lines ih =>
    intro m m1 h hm hq
    unfold loadLines at h
    cases ha : addLine line m with
    | aborted => simp [ha] at h
    | returned p =>
      obtain ⟨b, m2⟩ := p
      cases b with
      | false => simp [ha] at h
      | true =>
        simp only [ha] at h
        have hacc := addLine_accepted_of_returned_true line m m2 ha
        have hm2 := (addLine_of_accepted line m hacc).1
        rw [ha] at hm2
        simp only [Outcome.returned.injEq, Prod.mk.injEq, true_and] at hm2
        apply ih m2 m1 h
        · rw [hm2]
          exact push_back_entries Q m _ _ hm (hq line (List.mem_cons_self _ _) hacc)
        · exact fun l hl => hq l (List.mem_cons_of_mem _ hl)

theorem mem_storedRecords {ops : DoubleOps} (m : InfMap ops) (r : InfractionData ops) :
    r ∈ storedRecords m ↔ ∃ kv ∈ m, r ∈ kv.2 := by
  unfold storedRecords
  simp only [List.mem_flatten, List.mem_map]
  constructor
  · rintro ⟨l, ⟨kv, hkv, rfl⟩, hr⟩
    exact ⟨kv, hkv, hr⟩
  · rintro ⟨kv, hkv, hr⟩
    exact ⟨kv.2, ⟨kv, hkv, rfl⟩, hr⟩


theorem loadLines_all_accepted {ops : DoubleOps} (dataset : List String) (m m1 : InfMap ops)
    (h : loadLines dataset m = .returned m1) :
    ∀ line ∈ dataset, lineAccepted ops line = true := by
  intro line hl
  by_contra hna
  have hf : lineAccepted ops line = false := by
    cases hc : lineAccepted ops line with
    | false => rfl
    | true => exact absurd hc hna
  rw [loadLines_aborts dataset m ⟨line, hl, hf⟩] at h
  cases h

theorem RedeemAddressVerified_state {ops : DoubleOps} (resolve : CScript → Option String)
    (s : State ops) (exploited recipients : List RedeemData) :
    (RedeemAddressVerified resolve s exploited recipients).state = s := by
  unfold RedeemAddressVerified
  simp only [exploitedLoop_snd]
  split_ifs <;> try rfl
  all_goals (split <;> try rfl)
  all_goals (split_ifs <;> try rfl)
  all_goals (split <;> try rfl)
  all_goals (split_ifs <;> rfl)

/-! ## Claims about loading -/

/-- C15: when the dataset loaded into a validator that is not loaded has a line whose
parsed txid or address is empty, whose parsed integer or display amount is zero, or whose
record does not serialise back to the line, `Load` aborts, so it never returns true; and
`addLine` on a line with an empty or zero field returns false and leaves the map as it
was. -/
theorem load_malformed_aborts {ops : DoubleOps} (dataset : List String) (s : State ops)
    (hs : s.infMapLoaded = false)
    (h : ∃ line ∈ dataset,
      (parsedRecord ops line).txid = "" ∨ (parsedRecord ops line).address = "" ∨
      (parsedRecord ops line).amount = 0 ∨ ops.isZero (parsedRecord ops line).amountH = true ∨
      InfractionData.ToString (parsedRecord ops line) ≠ line) :
    LoadStaticFrom dataset s = .aborted ∧
    (∀ s1, LoadStaticFrom dataset s ≠ .returned (true, s1)) ∧
    (∀ (line : String) (m : InfMap ops),
      ((parsedRecord ops line).txid = "" ∨ (parsedRecord ops line).address = "" ∨
        (parsedRecord ops line).amount = 0 ∨
        ops.isZero (parsedRecord ops line).amountH = true) →
      addLine line m = .returned (false, m)) := by
  have hab : LoadStaticFrom dataset s = .aborted := by
    obtain ⟨line, hl, hbad⟩ := h
    have hf : lineAccepted ops line = false := by
      cases hc : lineAccepted ops line with
      | false => rfl
      | true =>
        obtain ⟨⟨h1, h2, h3, h4⟩, h5⟩ := (lineAccepted_iff line).mp hc
        rcases hbad with e | e | e | e | e
        · exact absurd e h1
        · exact absurd e h2
        · exact absurd e h3
        · rw [h4] at e; cases e
        · exact absurd h5 e
    unfold LoadStaticFrom
    simp [hs, loadLines_aborts dataset ([] : InfMap ops) ⟨line, hl, hf⟩]
  refine ⟨hab, ?_, fun line m hz => addLine_of_empty_or_zero line m hz⟩
  intro s1 hret
  rw [hab] at hret
  cases hret

/-- Witness of C15: the second line of the dataset separates its fields by blanks; its
record is complete but serialises with tabs, and `Load` aborts. -/
theorem load_malformed_aborts_witness :
    (State.initial decimalOps).infMapLoaded = false ∧
    (∃ line ∈ blankSeparatedDataset,
      (parsedRecord decimalOps line).txid = "" ∨ (parsedRecord decimalOps line).address = "" ∨
      (parsedRecord decimalOps line).amount = 0 ∨
      decimalOps.isZero (parsedRecord decimalOps line).amountH = true ∨
      InfractionData.ToString (parsedRecord decimalOps line) ≠ line) ∧
    LoadStaticFrom blankSeparatedDataset (State.initial decimalOps) = .aborted :=
  ⟨rfl,
   ⟨"tx1 addrB 250 2.500000", by decide,
     Or.inr (Or.inr (Or.inr (Or.inr (by decide))))⟩,
   (load_malformed_aborts blankSeparatedDataset (State.initial decimalOps) rfl
     ⟨"tx1 addrB 250 2.500000", by decide,
       Or.inr (Or.inr (Or.inr (Or.inr (by decide))))⟩).1⟩

/-- C16: when `addLine` returns true on a line, the record it appends under the record's
txid serialises, by `InfractionData::ToString`, to the line itself, and the other keys are
left as they were; hence after a `Load` that returns true every stored record is the
record parsed from a line of the dataset and serialises to that line. -/
theorem addLine_round_trip {ops : DoubleOps} (line : String) (m m1 : InfMap ops)
    (h : addLine line m = .returned (true, m1)) :
    InfractionData.ToString (parsedRecord ops line) = line ∧
    mapFind m1 (parsedRecord ops line).txid =
      some (registryRecords m (parsedRecord ops line).txid ++ [parsedRecord ops line]) ∧
    (∀ q, q ≠ (parsedRecord ops line).txid → mapFind m1 q = mapFind m q) ∧
    (∀ (dataset : List String) (s s1 : State ops),
      LoadStaticFrom dataset s = .returned (true, s1) →
      ∀ r ∈ storedRecords s1.infMap,
        ∃ l ∈ dataset, r = parsedRecord ops l ∧ InfractionData.ToString r = l) := by
  have hacc := addLine_accepted_of_returned_true line m m1 h
  obtain ⟨hm1, hser⟩ := addLine_of_accepted line m hacc
  rw [h] at hm1
  simp only [Outcome.returned.injEq, Prod.mk.injEq, true_and] at hm1
  refine ⟨hser.symm, ?_, ?_, ?_⟩
  · rw [hm1, mapFind_push_back]
    simp
  · intro q hq
    rw [hm1, mapFind_push_back]
    simp [hq]
  · intro dataset s s1 hload r hr
    have hs : s.infMapLoaded = false := by
      have := (LoadStaticFrom_returned dataset s s1 true hload).1
      cases hsl : s.infMapLoaded with
      | false => rfl
      | true => rw [hsl] at this; cases this
    unfold LoadStaticFrom at hload
    simp only [hs, Bool.false_eq_true, if_false] at hload
    cases hl : loadLines dataset ([] : InfMap ops) with
    | aborted => simp [hl] at hload
    | returned m2 =>
      simp only [hl, Outcome.returned.injEq, Prod.mk.injEq, true_and] at hload
      rw [← hload] at hr
      obtain ⟨kv, hkv, hrkv⟩ := (mem_storedRecords m2 r).mp hr
      have hall := loadLines_all_accepted dataset [] m2 hl
      exact loadLines_entries
        (fun _ x => ∃ l ∈ dataset, x = parsedRecord ops l ∧ InfractionData.ToString x = l)
        dataset [] m2 hl (by simp)
        (fun l hmem hacc1 =>
          ⟨l, hmem, rfl, (addLine_of_accepted l ([] : InfMap ops) hacc1).2.symm⟩)
        kv hkv r hrkv

/-- Witness of C16: the first line of the example dataset added to the empty map. -/
theorem addLine_round_trip_witness :
    @addLine decimalOps "tx1\taddrA\t1000\t1000.000000" [] =
      .returned (true, mapModify "tx1"
        (fun v => v ++ [parsedRecord decimalOps "tx1\taddrA\t1000\t1000.000000"])
        (mapIndex [] "tx1").2) ∧
    InfractionData.ToString (parsedRecord decimalOps "tx1\taddrA\t1000\t1000.000000") =
      "tx1\taddrA\t1000\t1000.000000" :=
  ⟨rfl,
   (@addLine_round_trip decimalOps "tx1\taddrA\t1000\t1000.000000" []
    (mapModify "tx1"
      (fun v => v ++ [parsedRecord decimalOps "tx1\taddrA\t1000\t1000.000000"])
      (mapIndex [] "tx1").2) rfl).1⟩

/-- C17: in every state reachable through the public operations, every record stored in
the map has a non-empty txid, a non-empty address, a non-zero integer amount and a
non-zero display amount, and is stored under the key equal to its own txid. -/
theorem reachable_records_valid {ops : DoubleOps} (resolve : CScript → Option String)
    (s : State ops) (h : Reachable resolve s) :
    ∀ kv ∈ s.infMap, ∀ r ∈ kv.2, recordValid r ∧ r.txid = kv.1 := by
  induction h with
  | initial => simp [State.initial]
  | @load s0 s1 b dataset _ hload ih =>
    unfold LoadStaticFrom at hload
    cases hl : s0.infMapLoaded with
    | true =>
      simp only [hl, if_true, Outcome.returned.injEq, Prod.mk.injEq] at hload
      rw [← hload.2]; exact ih
    | false =>
      simp only [hl, Bool.false_eq_true, if_false] at hload
      cases hm : loadLines dataset ([] : InfMap ops) with
      | aborted => simp [hm] at hload
      | returned m2 =>
        simp only [hm, Outcome.returned.injEq, Prod.mk.injEq] at hload
        rw [← hload.2]
        exact loadLines_entries (fun k x => recordValid x ∧ x.txid = k) dataset [] m2 hm
          (by simp) (fun l _ hacc => ⟨((lineAccepted_iff l).mp hacc).1, rfl⟩)
  | clear _ _ => simp [Clear]
  | getInfractions txId _ ih =>
    exact mapIndex_entries (fun k x => recordValid x ∧ x.txid = k) _ txId ih
  | @redeemAddressVerified s0 exploited recipients _ ih =>
    rw [RedeemAddressVerified_state]; exact ih

/-- Witness of C17: the state reached by loading the example dataset and then looking up
a transaction id the dataset does not mention. -/
theorem reachable_records_valid_witness :
    Reachable exampleResolve (GetInfractions exampleLoaded "tx9").2 ∧
    ∀ kv ∈ (GetInfractions exampleLoaded "tx9").2.infMap,
      ∀ r ∈ kv.2, recordValid r ∧ r.txid = kv.1 :=
  ⟨Reachable.getInfractions "tx9" (Reachable.load exampleDataset Reachable.initial rfl),
   reachable_records_valid exampleResolve _
     (Reachable.getInfractions "tx9" (Reachable.load exampleDataset Reachable.initial rfl))⟩

/-! ## Claims about `RedeemAddressVerified`, continued -/

/-- C18: a call of `RedeemAddressVerified` leaves the validator, map and loaded flag, as it
was, whichever branch returns, and the same call made again on the state it leaves gives
the same returned value and the same log. -/
theorem redeem_no_side_effect {ops : DoubleOps} (resolve : CScript → Option String)
    (s : State ops) (exploited recipients : List RedeemData) :
    (RedeemAddressVerified resolve s exploited recipients).state = s ∧
    (RedeemAddressVerified resolve s exploited recipients).state.infMap = s.infMap ∧
    (RedeemAddressVerified resolve s exploited recipients).state.infMapLoaded
      = s.infMapLoaded ∧
    RedeemAddressVerified resolve
      (RedeemAddressVerified resolve s exploited recipients).state exploited recipients =
      RedeemAddressVerified resolve s exploited recipients := by
  have h := RedeemAddressVerified_state resolve s exploited recipients
  refine ⟨h, ?_, ?_, ?_⟩ <;> rw [h]

/-- C20: `RedeemAddressVerified` logs the shortfall diagnostic exactly when it reaches the
final comparison (recipients not empty, the loop over the exploited inputs ends with a
non-zero `totalExploited`, every recipient resolves) with `0 < totalRedeem <
totalExploited`; it then returns false and logs that `totalExploited`; a call that returns
true logs nothing, and neither does a call whose `totalRedeem` is 0. -/
theorem redeem_diagnostic {ops : DoubleOps} (resolve : CScript → Option String)
    (s : State ops) (exploited recipients : List RedeemData) :
    ((RedeemAddressVerified resolve s exploited recipients).log ≠ [] ↔
      (recipients ≠ [] ∧ ∃ totalExploited totalRedeem,
        (exploitedLoop resolve exploited [] 0 s.infMap).1 = some totalExploited ∧
        totalExploited ≠ 0 ∧ redeemLoop resolve recipients 0 = some totalRedeem ∧
        0 < totalRedeem ∧ totalRedeem < totalExploited)) ∧
    ((RedeemAddressVerified resolve s exploited recipients).log ≠ [] →
      (RedeemAddressVerified resolve s exploited recipients).verified = false ∧
      ∃ totalExploited,
        (exploitedLoop resolve exploited [] 0 s.infMap).1 = some totalExploited ∧
        (RedeemAddressVerified resolve s exploited recipients).log =
          [LogEvent.failedToRedeem totalExploited]) ∧
    ((RedeemAddressVerified resolve s exploited recipients).verified = true →
      (RedeemAddressVerified resolve s exploited recipients).log = []) ∧
    (redeemLoop resolve recipients 0 = some 0 →
      (RedeemAddressVerified resolve s exploited recipients).log = []) := by
  unfold RedeemAddressVerified
  cases recipients with
  | nil => simp
  | cons r rs =>
    simp only [List.isEmpty_cons, Bool.false_eq_true, if_false, ne_eq, not_false_eq_true,
      true_and]
    cases hl : (exploitedLoop resolve exploited [] 0 s.infMap).1 with
    | none => simp
    | some tE =>
      by_cases h0 : tE = 0
      · simp [h0]
      · simp only [h0, if_false]
        cases hr : redeemLoop resolve (r :: rs) 0 with
        | none => simp
        | some tR =>
          by_cases hge : tR ≥ tE
          · have hlt : ¬ tR < tE := not_lt.mpr hge
            simp [hge, hlt, h0]
          · have hlt : tR < tE := not_le.mp hge
            by_cases hpos : tR > 0
            · have hne : ¬ tR = 0 := by omega
              simp [hge, hlt, hpos, h0, hne]
            · have hpos1 : ¬ 0 < tR := hpos
              simp [hge, hpos, hpos1, h0]

/-- Witness of C20 (scenario B): the registry records 1000 for `tx1`/`addrA` and the one
recipient pays 500 to the redemption address; the call returns false and logs the
diagnostic with the required 1000. -/
theorem redeem_diagnostic_witness :
    (RedeemAddressVerified exampleResolve scenarioState
      [⟨"tx1", [1], 500⟩] [⟨"", [2], 500⟩]).log ≠ [] ∧
    (RedeemAddressVerified exampleResolve scenarioState
      [⟨"tx1", [1], 500⟩] [⟨"", [2], 500⟩]).verified = false ∧
    (RedeemAddressVerified exampleResolve scenarioState
      [⟨"tx1", [1], 500⟩] [⟨"", [2], 500⟩]).log = [LogEvent.failedToRedeem 1000] :=
  ⟨by decide,
   ((redeem_diagnostic exampleResolve scenarioState
      [⟨"tx1", [1], 500⟩] [⟨"", [2], 500⟩]).2.1 (by decide)).1,
   by decide⟩

/-! ## Lemmas: the dedup key along the loop -/

theorem guid_injective_of_address (t1 a1 t2 a2 : String)
    (h1 : '-' ∉ a1.data) (h2 : '-' ∉ a2.data)
    (h : t1 ++ "-" ++ a1 = t2 ++ "-" ++ a2) : t1 = t2 ∧ a1 = a2 := by
  have hd : t1.data ++ ('-' :: a1.data) = t2.data ++ ('-' :: a2.data) := by
    have := congrArg String.data h
    simpa [String.data_append] using this
  have key : ∀ (r1 r2 l1 l2 : List Char), '-' ∉ r1 → '-' ∉ r2 →
      r1 ++ ('-' :: l1) = r2 ++ ('-' :: l2) → r1 = r2 ∧ l1 = l2 := by
    intro r1
    induction r1 with
    | nil =>
      intro r2 l1 l2 _ h2 h
      cases r2 with
      | nil => simpa using h
      | cons c r2 =>
        simp only [List.nil_append, List.cons_append, List.cons.injEq] at h
        exact absurd (h.1 ▸ List.mem_cons_self _ _) h2
    | cons c r1 ih =>
      intro r2 l1 l2 h1 h2 h
      cases r2 with
      | nil =>
        simp only [List.nil_append, List.cons_append, List.cons.injEq] at h
        exact absurd (h.1 ▸ List.mem_cons_self _ _) h1
      | cons d r2 =>
        simp only [List.cons_append, List.cons.injEq] at h
        obtain ⟨hl, hr⟩ := ih r2 l1 l2 (fun hm => h1 (List.mem_cons_of_mem _ hm))
          (fun hm => h2 (List.mem_cons_of_mem _ hm)) h.2
        exact ⟨by rw [h.1, hl], hr⟩
  have hrev : a1.data.reverse ++ ('-' :: t1.data.reverse) =
      a2.data.reverse ++ ('-' :: t2.data.reverse) := by
    have := congrArg List.reverse hd
    simpa using this
  obtain ⟨ha, ht⟩ := key _ _ _ _ (by simpa using h1) (by simpa using h2) hrev
  exact ⟨String.ext (List.reverse_injective ht), String.ext (List.reverse_injective ha)⟩

theorem exploitedLoop_cons_seen {ops : DoubleOps} (resolve : CScript → Option String)
    (m : InfMap ops) (e : RedeemData) (rest : List RedeemData) (seen : List String)
    (total : Int) (a : String) (hc : mapCount m e.txid ≠ 0)
    (hr : resolve e.scriptPubKey = some a) (hs : e.txid ++ "-" ++ a ∈ seen) :
    exploitedLoop resolve (e :: rest) seen total m = exploitedLoop resolve rest seen total m := by
  simp only [exploitedLoop, hc, if_false, hr, hs, if_true]

theorem exploitedLoop_cons_new {ops : DoubleOps} (resolve : CScript → Option String)
    (m : InfMap ops) (e : RedeemData) (rest : List RedeemData) (seen : List String)
    (total : Int) (a : String) (hc : mapCount m e.txid ≠ 0)
    (hr : resolve e.scriptPubKey = some a) (hs : e.txid ++ "-" ++ a ∉ seen) :
    exploitedLoop resolve (e :: rest) seen total m =
      exploitedLoop resolve rest ((e.txid ++ "-" ++ a) :: seen)
        (addCAmount total (exploitedAmountFrom a (registryRecords m e.txid) 0)) m := by
  simp only [exploitedLoop, hc, if_false, hr, hs]
  rw [mapIndex_of_count_ne_zero m e.txid hc]

theorem explSeenAfter_cons_seen {ops : DoubleOps} (resolve : CScript → Option String)
    (m : InfMap ops) (e : RedeemData) (rest : List RedeemData) (seen : List String)
    (a : String) (hc : mapCount m e.txid ≠ 0)
    (hr : resolve e.scriptPubKey = some a) (hs : e.txid ++ "-" ++ a ∈ seen) :
    explSeenAfter resolve m (e :: rest) seen = explSeenAfter resolve m rest seen := by
  simp only [explSeenAfter, hc, if_false, hr, hs, if_true]

theorem explSeenAfter_cons_new {ops : DoubleOps} (resolve : CScript → Option String)
    (m : InfMap ops) (e : RedeemData) (rest : List RedeemData) (seen : List String)
    (a : String) (hc : mapCount m e.txid ≠ 0)
    (hr : resolve e.scriptPubKey = some a) (hs : e.txid ++ "-" ++ a ∉ seen) :
    explSeenAfter resolve m (e :: rest) seen =
      explSeenAfter resolve m rest ((e.txid ++ "-" ++ a) :: seen) := by
  simp only [explSeenAfter, hc, if_false, hr, hs]

theorem explSeenAfter_mono {ops : DoubleOps} (resolve : CScript → Option String)
    (m : InfMap ops) (es : List RedeemData) :
    ∀ (seen : List String) (g : String), g ∈ seen → g ∈ explSeenAfter resolve m es seen := by
  induction es with
  | nil => intro seen g h; exact h
  | cons e es ih =>
    intro seen g h
    unfold explSeenAfter
    by_cases hc : mapCount m e.txid = 0
    · simp [hc, h]
    · simp only [hc, if_false]
      cases hr : resolve e.scriptPubKey with
      | none => exact h
      | some a =>
        simp only
        by_cases hs : e.txid ++ "-" ++ a ∈ seen
        · simp only [hs, if_true]; exact ih seen g h
        · simp only [hs, if_false]; exact ih _ g (List.mem_cons_of_mem _ h)

theorem explSeenAfter_mem {ops : DoubleOps} (resolve : CScript → Option String)
    (m : InfMap ops) (es : List RedeemData) :
    ∀ (seen : List String) (x : RedeemData) (a : String),
    (∀ e ∈ es, mapCount m e.txid ≠ 0) → (∀ e ∈ es, resolve e.scriptPubKey ≠ none) →
    x ∈ es → resolve x.scriptPubKey = some a →
    x.txid ++ "-" ++ a ∈ explSeenAfter resolve m es seen := by
  induction es with
  | nil => intro seen x a _ _ hx; cases hx
  | cons e es ih =>
    intro seen x a hreg hres hx hxa
    have hc : mapCount m e.txid ≠ 0 := hreg e (List.mem_cons_self _ _)
    have hreg1 : ∀ y ∈ es, mapCount m y.txid ≠ 0 :=
      fun y hy => hreg y (List.mem_cons_of_mem _ hy)
    have hres1 : ∀ y ∈ es, resolve y.scriptPubKey ≠ none :=
      fun y hy => hres y (List.mem_cons_of_mem _ hy)
    cases hr : resolve e.scriptPubKey with
    | none => exact absurd hr (hres e (List.mem_cons_self _ _))
    | some b =>
      by_cases hs : e.txid ++ "-" ++ b ∈ seen
      · rw [explSeenAfter_cons_seen resolve m e es seen b hc hr hs]
        rcases List.mem_cons.mp hx with hxe | hx1
        · rw [hxe, hr] at hxa
          have hba : b = a := Option.some.inj hxa
          rw [hxe, ← hba]
          exact explSeenAfter_mono resolve m es seen _ hs
        · exact ih seen x a hreg1 hres1 hx1 hxa
      · rw [explSeenAfter_cons_new resolve m e es seen b hc hr hs]
        rcases List.mem_cons.mp hx with hxe | hx1
        · rw [hxe, hr] at hxa
          have hba : b = a := Option.some.inj hxa
          rw [hxe, ← hba]
          exact explSeenAfter_mono resolve m es _ _ (List.mem_cons_self _ _)
        · exact ih _ x a hreg1 hres1 hx1 hxa

theorem explSeenAfter_origin {ops : DoubleOps} (resolve : CScript → Option String)
    (m : InfMap ops) (es : List RedeemData) :
    ∀ (seen : List String) (g : String), g ∈ explSeenAfter resolve m es seen →
    g ∈ seen ∨ ∃ x ∈ es, ∃ a, resolve x.scriptPubKey = some a ∧ g = x.txid ++ "-" ++ a := by
  induction es with
  | nil => intro seen g h; exact Or.inl h
  | cons e es ih =>
    intro seen g h
    unfold explSeenAfter at h
    by_cases hc : mapCount m e.txid = 0
    · simp only [hc, if_true] at h; exact Or.inl h
    · simp only [hc, if_false] at h
      cases hr : resolve e.scriptPubKey with
      | none => simp only [hr] at h; exact Or.inl h
      | some a =>
        simp only [hr] at h
        by_cases hs : e.txid ++ "-" ++ a ∈ seen
        · simp only [hs, if_true] at h
          rcases ih seen g h with h1 | ⟨x, hx, b, hb, hg⟩
          · exact Or.inl h1
          · exact Or.inr ⟨x, List.mem_cons_of_mem _ hx, b, hb, hg⟩
        · simp only [hs, if_false] at h
          rcases ih _ g h with h1 | ⟨x, hx, b, hb, hg⟩
          · rcases List.mem_cons.mp h1 with rfl | h2
            · exact Or.inr ⟨e, List.mem_cons_self _ _, a, hr, rfl⟩
            · exact Or.inl h2
          · exact Or.inr ⟨x, List.mem_cons_of_mem _ hx, b, hb, hg⟩

theorem exploitedLoop_append {ops : DoubleOps} (resolve : CScript → Option String)
    (m : InfMap ops) (pre : List RedeemData) :
    ∀ (seen : List String) (total : Int),
    (∀ e ∈ pre, mapCount m e.txid ≠ 0) → (∀ e ∈ pre, resolve e.scriptPubKey ≠ none) →
    ∃ T, exploitedLoop resolve pre seen total m = (some T, m) ∧
      ∀ post, exploitedLoop resolve (pre ++ post) seen total m =
        exploitedLoop resolve post (explSeenAfter resolve m pre seen) T m := by
  induction pre with
  | nil =>
    intro seen total _ _
    exact ⟨total, rfl, fun post => rfl⟩
  | cons e pre ih =>
    intro seen total hreg hres
    have hc : mapCount m e.txid ≠ 0 := hreg e (List.mem_cons_self _ _)
    have hreg1 : ∀ y ∈ pre, mapCount m y.txid ≠ 0 :=
      fun y hy => hreg y (List.mem_cons_of_mem _ hy)
    have hres1 : ∀ y ∈ pre, resolve y.scriptPubKey ≠ none :=
      fun y hy => hres y (List.mem_cons_of_mem _ hy)
    cases hr : resolve e.scriptPubKey with
    | none => exact absurd hr (hres e (List.mem_cons_self _ _))
    | some a =>
      by_cases hs : e.txid ++ "-" ++ a ∈ seen
      · obtain ⟨T, hT, hpost⟩ := ih seen total hreg1 hres1
        refine ⟨T, ?_, ?_⟩
        · rw [exploitedLoop_cons_seen resolve m e pre seen total a hc hr hs]
          exact hT
        · intro post
          rw [List.cons_append, exploitedLoop_cons_seen resolve m e _ seen total a hc hr hs,
            explSeenAfter_cons_seen resolve m e pre seen a hc hr hs]
          exact hpost post
      · obtain ⟨T, hT, hpost⟩ := ih ((e.txid ++ "-" ++ a) :: seen)
          (addCAmount total (exploitedAmountFrom a (registryRecords m e.txid) 0)) hreg1 hres1
        refine ⟨T, ?_, ?_⟩
        · rw [exploitedLoop_cons_new resolve m e pre seen total a hc hr hs]
          exact hT
        · intro post
          rw [List.cons_append, exploitedLoop_cons_new resolve m e _ seen total a hc hr hs,
            explSeenAfter_cons_new resolve m e pre seen a hc hr hs]
          exact hpost post

theorem exploitedLoop_append_none {ops : DoubleOps} (resolve : CScript → Option String)
    (m : InfMap ops) (pre post : List RedeemData) :
    ∀ (seen : List String) (total : Int),
    (exploitedLoop resolve pre seen total m).1 = none →
    exploitedLoop resolve (pre ++ post) seen total m = exploitedLoop resolve pre seen total m := by
  induction pre with
  | nil => intro seen total h; simp [exploitedLoop] at h
  | cons e pre ih =>
    intro seen total h
    rw [List.cons_append]
    unfold exploitedLoop at h ⊢
    by_cases hc : mapCount m e.txid = 0
    · simp [hc]
    · simp only [hc, if_false] at h ⊢
      cases hr : resolve e.scriptPubKey with
      | none => rfl
      | some a =>
        simp only [hr] at h ⊢
        by_cases hs : e.txid ++ "-" ++ a ∈ seen
        · simp only [hs, if_true] at h ⊢
          exact ih _ _ h
        · simp only [hs, if_false] at h ⊢
          rw [mapIndex_of_count_ne_zero m e.txid hc] at h ⊢
          exact ih _ _ h

theorem exploitedLoop_passes {ops : DoubleOps} (resolve : CScript → Option String)
    (m : InfMap ops) (es : List RedeemData) (seen : List String) (total : Int)
    (h : (exploitedLoop resolve es seen total m).1 ≠ none) :
    (∀ e ∈ es, mapCount m e.txid ≠ 0) ∧ (∀ e ∈ es, resolve e.scriptPubKey ≠ none) := by
  constructor
  · intro e he h0
    exact h (exploitedLoop_unregistered resolve es seen total m ⟨e, he, h0⟩)
  · intro e he h0
    exact h (exploitedLoop_unresolved resolve es seen total m ⟨e, he, h0⟩)

theorem exampleResolve_base58 :
    ∀ (sc : CScript) (a : String), exampleResolve sc = some a → '-' ∉ a.data := by
  intro sc a h
  unfold exampleResolve at h
  split at h
  · cases h; decide
  · cases h; decide
  · cases h; decide
  · cases h

theorem exploitedLoop_append_copy {ops : DoubleOps} (resolve : CScript → Option String)
    (m : InfMap ops) (exploited : List RedeemData) (x : RedeemData) (hx : x ∈ exploited) :
    exploitedLoop resolve (exploited ++ [x]) [] 0 m = exploitedLoop resolve exploited [] 0 m := by
  cases hl : (exploitedLoop resolve exploited [] 0 m).1 with
  | none => exact exploitedLoop_append_none resolve m exploited [x] [] 0 hl
  | some t =>
    have hne : (exploitedLoop resolve exploited [] 0 m).1 ≠ none := by rw [hl]; simp
    obtain ⟨hreg, hres⟩ := exploitedLoop_passes resolve m exploited [] 0 hne
    obtain ⟨T, hT, hpost⟩ := exploitedLoop_append resolve m exploited [] 0 hreg hres
    cases hr : resolve x.scriptPubKey with
    | none => exact absurd hr (hres x hx)
    | some a =>
      rw [hpost [x], hT,
        exploitedLoop_cons_seen resolve m x [] _ T a (hreg x hx) hr
          (explSeenAfter_mem resolve m exploited [] x a hreg hres hx hr)]
      rfl

/-- C19: with addresses written in Base58, which has no `-`, the dedup key stands for the
pair (txid, address). When the loop reaches an input, its key is in `explSeen` exactly
when an earlier input of the call had the same txid and the same resolved address; the
input is then skipped and the loop goes on with `explSeen` and `totalExploited` as they
were; otherwise the key is inserted and the registry amount of the pair is added. Also,
appending a copy of an exploited input already present never changes the result of
`RedeemAddressVerified`. -/
theorem dedup_by_pair {ops : DoubleOps} (resolve : CScript → Option String)
    (s : State ops) :
    (∀ (pre post : List RedeemData) (e : RedeemData) (a : String),
      (∀ sc b, resolve sc = some b → '-' ∉ b.data) →
      (∀ x ∈ pre, mapCount s.infMap x.txid ≠ 0) →
      (∀ x ∈ pre, resolve x.scriptPubKey ≠ none) →
      mapCount s.infMap e.txid ≠ 0 →
      resolve e.scriptPubKey = some a →
      ∃ totalExploited,
        exploitedLoop resolve pre [] 0 s.infMap = (some totalExploited, s.infMap) ∧
        (e.txid ++ "-" ++ a ∈ explSeenAfter resolve s.infMap pre [] ↔
          ∃ x ∈ pre, x.txid = e.txid ∧ resolve x.scriptPubKey = some a) ∧
        ((∃ x ∈ pre, x.txid = e.txid ∧ resolve x.scriptPubKey = some a) →
          exploitedLoop resolve (pre ++ e :: post) [] 0 s.infMap =
            exploitedLoop resolve post (explSeenAfter resolve s.infMap pre [])
              totalExploited s.infMap) ∧
        ((¬ ∃ x ∈ pre, x.txid = e.txid ∧ resolve x.scriptPubKey = some a) →
          exploitedLoop resolve (pre ++ e :: post) [] 0 s.infMap =
            exploitedLoop resolve post
              ((e.txid ++ "-" ++ a) :: explSeenAfter resolve s.infMap pre [])
              (addCAmount totalExploited
                (exploitedAmountFrom a (registryRecords s.infMap e.txid) 0)) s.infMap)) ∧
    (∀ (exploited recipients : List RedeemData) (x : RedeemData), x ∈ exploited →
      RedeemAddressVerified resolve s (exploited ++ [x]) recipients =
        RedeemAddressVerified resolve s exploited recipients) := by
  constructor
  · intro pre post e a hb hreg hres hereg he
    obtain ⟨T, hT, hpost⟩ := exploitedLoop_append resolve s.infMap pre [] 0 hreg hres
    have hiff : e.txid ++ "-" ++ a ∈ explSeenAfter resolve s.infMap pre [] ↔
        ∃ x ∈ pre, x.txid = e.txid ∧ resolve x.scriptPubKey = some a := by
      constructor
      · intro hmem
        rcases explSeenAfter_origin resolve s.infMap pre [] _ hmem with h0 | ⟨x, hx, b, hxb, hg⟩
        · cases h0
        · obtain ⟨h1, h2⟩ := guid_injective_of_address _ _ _ _ (hb _ _ he) (hb _ _ hxb) hg
          exact ⟨x, hx, h1.symm, by rw [hxb, h2]⟩
      · rintro ⟨x, hx, hxt, hxa⟩
        rw [← hxt]
        exact explSeenAfter_mem resolve s.infMap pre [] x a hreg hres hx hxa
    refine ⟨T, hT, hiff, ?_, ?_⟩
    · intro hex
      rw [hpost (e :: post),
        exploitedLoop_cons_seen resolve s.infMap e post _ T a hereg he (hiff.mpr hex)]
    · intro hnex
      rw [hpost (e :: post),
        exploitedLoop_cons_new resolve s.infMap e post _ T a hereg he
          (fun hmem => hnex (hiff.mp hmem))]
  · intro exploited recipients x hx
    unfold RedeemAddressVerified
    rw [exploitedLoop_append_copy resolve s.infMap exploited x hx]

/-- Witness of C19: in the scenario registry, a second input of `tx1` paying from `addrA`
follows a first one carrying another amount; its key is already in `explSeen`, and
appending it does not change the result of the call. -/
theorem dedup_by_pair_witness :
    (∀ sc b, exampleResolve sc = some b → '-' ∉ b.data) ∧
    (∀ x ∈ [(⟨"tx1", [1], 500⟩ : RedeemData)], mapCount scenarioState.infMap x.txid ≠ 0) ∧
    (∀ x ∈ [(⟨"tx1", [1], 500⟩ : RedeemData)], exampleResolve x.scriptPubKey ≠ none) ∧
    mapCount scenarioState.infMap "tx1" ≠ 0 ∧
    exampleResolve [1] = some "addrA" ∧
    ("tx1" ++ "-" ++ "addrA" ∈
        explSeenAfter exampleResolve scenarioState.infMap [⟨"tx1", [1], 500⟩] [] ↔
      ∃ x ∈ [(⟨"tx1", [1], 500⟩ : RedeemData)],
        x.txid = "tx1" ∧ exampleResolve x.scriptPubKey = some "addrA") ∧
    RedeemAddressVerified exampleResolve scenarioState
        ([⟨"tx1", [1], 500⟩] ++ [⟨"tx1", [1], 500⟩]) [⟨"", [2], 1000⟩] =
      RedeemAddressVerified exampleResolve scenarioState
        [⟨"tx1", [1], 500⟩] [⟨"", [2], 1000⟩] :=
  ⟨exampleResolve_base58, by decide, by decide, by decide, rfl,
   Exists.elim
     ((dedup_by_pair exampleResolve scenarioState).1 [⟨"tx1", [1], 500⟩] []
       ⟨"tx1", [1], 7⟩ "addrA" exampleResolve_base58 (by decide) (by decide) (by decide) rfl)
     (fun _ h => h.2.1),
   (dedup_by_pair exampleResolve scenarioState).2 [⟨"tx1", [1], 500⟩] [⟨"", [2], 1000⟩]
     ⟨"tx1", [1], 500⟩ (by decide)⟩

/-! ## Lemmas: the loops under permutation -/

theorem exploitedLoop_spec_base58 {ops : DoubleOps} (resolve : CScript → Option String)
    (m : InfMap ops) (hb : ∀ sc b, resolve sc = some b → '-' ∉ b.data)
    (es : List RedeemData) :
    ∀ (seen : List String) (P : Finset (String × String)) (total : Int),
    (∀ e ∈ es, mapCount m e.txid ≠ 0) →
    (∀ e ∈ es, resolve e.scriptPubKey ≠ none) →
    (∀ p : String × String, '-' ∉ p.2.data → (p.1 ++ "-" ++ p.2 ∈ seen ↔ p ∈ P)) →
    wrapCAmount total = total →
    (exploitedLoop resolve es seen total m).1 =
      some (wrapCAmount (total +
        ∑ p in (exploitedPairs resolve es).toFinset \ P, registryAmount m p)) := by
  induction es with
  | nil =>
    intro seen P total _ _ _ ht
    simp [exploitedLoop, exploitedPairs, ht]
  | cons e es ih =>
    intro seen P total hreg hres hseen ht
    have hc : mapCount m e.txid ≠ 0 := hreg e (List.mem_cons_self _ _)
    have hreg1 : ∀ x ∈ es, mapCount m x.txid ≠ 0 :=
      fun x hx => hreg x (List.mem_cons_of_mem _ hx)
    have hres1 : ∀ x ∈ es, resolve x.scriptPubKey ≠ none :=
      fun x hx => hres x (List.mem_cons_of_mem _ hx)
    cases hr : resolve e.scriptPubKey with
    | none => exact absurd hr (hres e (List.mem_cons_self _ _))
    | some a =>
      rw [exploitedPairs_cons resolve e es a hr, List.toFinset_cons]
      unfold exploitedLoop
      simp only [hc, if_false, hr]
      have hmem : e.txid ++ "-" ++ a ∈ seen ↔ (e.txid, a) ∈ P := hseen (e.txid, a) (hb _ _ hr)
      by_cases hs : e.txid ++ "-" ++ a ∈ seen
      · simp only [hs, if_true]
        rw [ih seen P total hreg1 hres1 hseen ht,
          Finset.insert_sdiff_of_mem _ (hmem.mp hs)]
      · simp only [hs, if_false]
        have hP : (e.txid, a) ∉ P := fun hp => hs (hmem.mpr hp)
        rw [mapIndex_of_count_ne_zero m e.txid hc]
        have hseen1 : ∀ p : String × String, '-' ∉ p.2.data →
            (p.1 ++ "-" ++ p.2 ∈ (e.txid ++ "-" ++ a) :: seen ↔ p ∈ insert (e.txid, a) P) := by
          intro p hp
          rw [List.mem_cons, Finset.mem_insert, hseen p hp]
          constructor
          · rintro (h | h)
            · obtain ⟨h1, h2⟩ := guid_injective_of_address _ _ _ _ hp (hb _ _ hr) h
              exact Or.inl (Prod.ext h1 h2)
            · exact Or.inr h
          · rintro (h | h)
            · left; rw [h]
            · exact Or.inr h
        rw [ih _ (insert (e.txid, a) P) _ hreg1 hres1 hseen1
          (by unfold addCAmount; exact wrapCAmount_idem _)]
        have hset : insert (e.txid, a) (exploitedPairs resolve es).toFinset \ P =
            insert (e.txid, a)
              ((exploitedPairs resolve es).toFinset \ insert (e.txid, a) P) := by
          ext x
          simp only [Finset.mem_sdiff, Finset.mem_insert]
          constructor
          · rintro ⟨h1 | h1, h2⟩
            · exact Or.inl h1
            · by_cases hx : x = (e.txid, a)
              · exact Or.inl hx
              · exact Or.inr ⟨h1, fun h => h.elim hx h2⟩
          · rintro (h1 | ⟨h1, h2⟩)
            · exact ⟨Or.inl h1, h1 ▸ hP⟩
            · exact ⟨Or.inr h1, fun h => h2 (Or.inr h)⟩
        have hnot : (e.txid, a) ∉
            (exploitedPairs resolve es).toFinset \ insert (e.txid, a) P := by
          simp
        rw [hset, Finset.sum_insert hnot]
        unfold addCAmount
        rw [wrapCAmount_add_left]
        have h1 := exploitedAmountFrom_wrap a (registryRecords m e.txid)
          (total + ∑ p in (exploitedPairs resolve es).toFinset \ insert (e.txid, a) P,
            registryAmount m p) 0
        have e1 : total + exploitedAmountFrom a (registryRecords m e.txid) 0 +
            ∑ p in (exploitedPairs resolve es).toFinset \ insert (e.txid, a) P,
              registryAmount m p =
            (total + ∑ p in (exploitedPairs resolve es).toFinset \ insert (e.txid, a) P,
              registryAmount m p) + exploitedAmountFrom a (registryRecords m e.txid) 0 := by
          ring
        rw [e1, h1]
        congr 2
        unfold registryAmount
        simp only
        ring

theorem exploitedLoop_eq_spec_base58 {ops : DoubleOps} (resolve : CScript → Option String)
    (m : InfMap ops) (es : List RedeemData)
    (hreg : ∀ e ∈ es, mapCount m e.txid ≠ 0)
    (hres : ∀ e ∈ es, resolve e.scriptPubKey ≠ none)
    (hb : ∀ sc b, resolve sc = some b → '-' ∉ b.data) :
    (exploitedLoop resolve es [] 0 m).1 = some (wrapCAmount (specExploitedSum resolve m es)) := by
  have h := exploitedLoop_spec_base58 resolve m hb es [] ∅ 0 hreg hres
    (by intro p _; simp) (by decide)
  simpa [specExploitedSum] using h

theorem exploitedLoop_perm {ops : DoubleOps} (resolve : CScript → Option String)
    (m : InfMap ops) (hb : ∀ sc b, resolve sc = some b → '-' ∉ b.data)
    (es es1 : List RedeemData) (hp : es.Perm es1) :
    exploitedLoop resolve es [] 0 m = exploitedLoop resolve es1 [] 0 m := by
  apply Prod.ext
  · by_cases hreg : ∃ e ∈ es, mapCount m e.txid = 0
    · have hreg1 : ∃ e ∈ es1, mapCount m e.txid = 0 := by
        obtain ⟨e, he, h0⟩ := hreg
        exact ⟨e, hp.mem_iff.mp he, h0⟩
      rw [exploitedLoop_unregistered resolve es [] 0 m hreg,
        exploitedLoop_unregistered resolve es1 [] 0 m hreg1]
    · by_cases hres : ∃ e ∈ es, resolve e.scriptPubKey = none
      · have hres1 : ∃ e ∈ es1, resolve e.scriptPubKey = none := by
          obtain ⟨e, he, h0⟩ := hres
          exact ⟨e, hp.mem_iff.mp he, h0⟩
        rw [exploitedLoop_unresolved resolve es [] 0 m hres,
          exploitedLoop_unresolved resolve es1 [] 0 m hres1]
      · have hA : ∀ e ∈ es, mapCount m e.txid ≠ 0 := fun e he h0 => hreg ⟨e, he, h0⟩
        have hB : ∀ e ∈ es, resolve e.scriptPubKey ≠ none := fun e he h0 => hres ⟨e, he, h0⟩
        have hA1 : ∀ e ∈ es1, mapCount m e.txid ≠ 0 := fun e he => hA e (hp.mem_iff.mpr he)
        have hB1 : ∀ e ∈ es1, resolve e.scriptPubKey ≠ none :=
          fun e he => hB e (hp.mem_iff.mpr he)
        rw [exploitedLoop_eq_spec_base58 resolve m es hA hB hb,
          exploitedLoop_eq_spec_base58 resolve m es1 hA1 hB1 hb]
        have hpairs : (exploitedPairs resolve es).toFinset =
            (exploitedPairs resolve es1).toFinset :=
          List.toFinset_eq_of_perm _ _ (hp.filterMap _)
        unfold specExploitedSum
        rw [hpairs]
  · rw [exploitedLoop_snd, exploitedLoop_snd]

theorem redeemLoop_perm (resolve : CScript → Option String)
    (rs rs1 : List RedeemData) (hp : rs.Perm rs1) :
    redeemLoop resolve rs 0 = redeemLoop resolve rs1 0 := by
  by_cases hres : ∃ r ∈ rs, resolve r.scriptPubKey = none
  · have hres1 : ∃ r ∈ rs1, resolve r.scriptPubKey = none := by
      obtain ⟨r, hr, h0⟩ := hres
      exact ⟨r, hp.mem_iff.mp hr, h0⟩
    rw [redeemLoop_unresolved resolve rs 0 hres, redeemLoop_unresolved resolve rs1 0 hres1]
  · have hB : ∀ r ∈ rs, resolve r.scriptPubKey ≠ none := fun r hr h0 => hres ⟨r, hr, h0⟩
    have hB1 : ∀ r ∈ rs1, resolve r.scriptPubKey ≠ none :=
      fun r hr => hB r (hp.mem_iff.mpr hr)
    rw [redeemLoop_spec resolve rs 0 hB (by decide), redeemLoop_spec resolve rs1 0 hB1 (by decide)]
    have : specRedeemedSum resolve rs = specRedeemedSum resolve rs1 := by
      unfold specRedeemedSum
      exact ((hp.filter _).map _).sum_eq
    rw [this]

theorem redeemLoop_resolves (resolve : CScript → Option String) (rs : List RedeemData)
    (total t : Int) (h : redeemLoop resolve rs total = some t) :
    ∀ r ∈ rs, resolve r.scriptPubKey ≠ none := by
  intro r hr h0
  rw [redeemLoop_unresolved resolve rs total ⟨r, hr, h0⟩] at h
  cases h

theorem specRedeemedSum_append (resolve : CScript → Option String) (rs : List RedeemData)
    (x : RedeemData) :
    specRedeemedSum resolve (rs ++ [x]) = specRedeemedSum resolve rs +
      (if resolve x.scriptPubKey = some redeemAddress then x.amount else 0) := by
  unfold specRedeemedSum
  by_cases h : resolve x.scriptPubKey = some redeemAddress
  · simp [List.filter_append, List.filter_cons, h]
  · simp [List.filter_append, List.filter_cons, h]

/-! ## Claims about lookups, order and the built-in dataset -/

/-- C22 fails on the code for the lookup by transaction id: in the scenario registry,
which has no entry for the txid, `IsCoinValid` of it is true and a redemption spending an
input of it is rejected; `GetInfractions` of that txid returns no record, and afterwards
`IsCoinValid` of it is false and the same redemption is accepted. -/
theorem lookup_changes_later_results :
    IsCoinValid scenarioState exampleTxId = true ∧
    (RedeemAddressVerified exampleResolve scenarioState
      [⟨exampleTxId, [1], 500⟩] [⟨"", [3], 0⟩]).verified = false ∧
    (GetInfractions scenarioState exampleTxId).1.length = 0 ∧
    IsCoinValid (GetInfractions scenarioState exampleTxId).2 exampleTxId = false ∧
    (RedeemAddressVerified exampleResolve (GetInfractions scenarioState exampleTxId).2
      [⟨exampleTxId, [1], 500⟩] [⟨"", [3], 0⟩]).verified = true :=
  ⟨by decide, by decide, by decide, by decide, by decide⟩

/-- C23: with addresses written in Base58, which has no `-`, `RedeemAddressVerified` gives
the same result (returned value, validator and log) for any permutation of the exploited
inputs and any permutation of the recipient outputs. -/
theorem redeem_order_independent {ops : DoubleOps} (resolve : CScript → Option String)
    (s : State ops) (exploited exploited1 recipients recipients1 : List RedeemData)
    (hb : ∀ sc b, resolve sc = some b → '-' ∉ b.data)
    (hpe : exploited.Perm exploited1) (hpr : recipients.Perm recipients1) :
    RedeemAddressVerified resolve s exploited recipients =
      RedeemAddressVerified resolve s exploited1 recipients1 := by
  have hemp : recipients.isEmpty = recipients1.isEmpty := by
    cases recipients with
    | nil => rw [List.Perm.nil_eq hpr]
    | cons r rs =>
      cases recipients1 with
      | nil => exact absurd (List.Perm.eq_nil hpr) (by simp)
      | cons r1 rs1 => rfl
  unfold RedeemAddressVerified
  rw [hemp, exploitedLoop_perm resolve s.infMap hb exploited exploited1 hpe,
    redeemLoop_perm resolve recipients recipients1 hpr]

/-- Witness of C23: three inputs of `tx1`, two of them from `addrA`, and two payments to
the redemption address, each list taken in two orders; the call is accepted in both. -/
theorem redeem_order_independent_witness :
    (∀ sc b, exampleResolve sc = some b → '-' ∉ b.data) ∧
    List.Perm [(⟨"tx1", [1], 500⟩ : RedeemData), ⟨"tx1", [3], 1⟩, ⟨"tx1", [1], 7⟩]
      [⟨"tx1", [1], 7⟩, ⟨"tx1", [1], 500⟩, ⟨"tx1", [3], 1⟩] ∧
    List.Perm [(⟨"", [2], 400⟩ : RedeemData), ⟨"", [2], 600⟩]
      [⟨"", [2], 600⟩, ⟨"", [2], 400⟩] ∧
    RedeemAddressVerified exampleResolve scenarioState
        [⟨"tx1", [1], 500⟩, ⟨"tx1", [3], 1⟩, ⟨"tx1", [1], 7⟩]
        [⟨"", [2], 400⟩, ⟨"", [2], 600⟩] =
      RedeemAddressVerified exampleResolve scenarioState
        [⟨"tx1", [1], 7⟩, ⟨"tx1", [1], 500⟩, ⟨"tx1", [3], 1⟩]
        [⟨"", [2], 600⟩, ⟨"", [2], 400⟩] ∧
    (RedeemAddressVerified exampleResolve scenarioState
        [⟨"tx1", [1], 500⟩, ⟨"tx1", [3], 1⟩, ⟨"tx1", [1], 7⟩]
        [⟨"", [2], 400⟩, ⟨"", [2], 600⟩]).verified = true :=
  ⟨exampleResolve_base58, by decide, by decide,
   redeem_order_independent exampleResolve scenarioState _ _ _ _ exampleResolve_base58
     (by decide) (by decide),
   by decide⟩

/-- C24: when `RedeemAddressVerified` returns true and one more recipient output is
appended, whose script resolves and whose amount is not negative, the call still returns
true, provided the amounts paid to the redemption address sum within `int64_t` before and
after. -/
theorem redeem_monotone {ops : DoubleOps} (resolve : CScript → Option String)
    (s : State ops) (exploited recipients : List RedeemData) (x : RedeemData)
    (hv : (RedeemAddressVerified resolve s exploited recipients).verified = true)
    (hx : resolve x.scriptPubKey ≠ none) (hx0 : 0 ≤ x.amount)
    (hR : inCAmountRange (specRedeemedSum resolve recipients))
    (hR1 : inCAmountRange (specRedeemedSum resolve (recipients ++ [x]))) :
    (RedeemAddressVerified resolve s exploited (recipients ++ [x])).verified = true := by
  have hemp1 : (recipients ++ [x]).isEmpty = false := by
    cases recipients <;> rfl
  unfold RedeemAddressVerified at hv ⊢
  cases recipients with
  | nil => simp at hv
  | cons r rs =>
    simp only [List.isEmpty_cons, Bool.false_eq_true, if_false] at hv
    simp only [hemp1, Bool.false_eq_true, if_false]
    cases hl : (exploitedLoop resolve exploited [] 0 s.infMap).1 with
    | none => simp [hl] at hv
    | some tE =>
      simp only [hl] at hv ⊢
      by_cases h0 : tE = 0
      · simp [h0]
      · simp only [h0, if_false] at hv ⊢
        cases hr : redeemLoop resolve (r :: rs) 0 with
        | none => simp [hr] at hv
        | some tR =>
          have hres := redeemLoop_resolves resolve (r :: rs) 0 tR hr
          have hres1 : ∀ y ∈ (r :: rs) ++ [x], resolve y.scriptPubKey ≠ none := by
            intro y hy
            rcases List.mem_append.mp hy with h | h
            · exact hres y h
            · rw [List.mem_singleton.mp h]; exact hx
          have hspec := redeemLoop_spec resolve (r :: rs) 0 hres (by decide)
          rw [zero_add, wrapCAmount_of_inRange _ hR, hr] at hspec
          have hspec1 := redeemLoop_spec resolve ((r :: rs) ++ [x]) 0 hres1 (by decide)
          rw [zero_add, wrapCAmount_of_inRange _ hR1] at hspec1
          have htR : tR = specRedeemedSum resolve (r :: rs) := Option.some.inj hspec
          have hge : tR ≥ tE := by
            by_contra hn
            simp only [hr] at hv
            by_cases hpos : tR > 0
            · simp [hn, hpos] at hv
            · simp [hn, hpos] at hv
          have hsum := specRedeemedSum_append resolve (r :: rs) x
          have hge1 : specRedeemedSum resolve ((r :: rs) ++ [x]) ≥ tE := by
            rw [hsum, ← htR]
            split_ifs <;> omega
          rw [hspec1]
          have hge2 : tE ≤ specRedeemedSum resolve (r :: (rs ++ [x])) := hge1
          have hnlt : ¬ specRedeemedSum resolve (r :: (rs ++ [x])) < tE := not_lt.mpr hge2
          simp [hge2, hnlt]

/-- Witness of C24: scenario A, accepted with one payment of 1000 to the redemption
address, stays accepted when a payment of 5 to `addrB` is appended. -/
theorem redeem_monotone_witness :
    (RedeemAddressVerified exampleResolve scenarioState
      [⟨"tx1", [1], 500⟩] [⟨"", [2], 1000⟩]).verified = true ∧
    exampleResolve [3] ≠ none ∧ (0 : Int) ≤ 5 ∧
    inCAmountRange (specRedeemedSum exampleResolve [⟨"", [2], 1000⟩]) ∧
    inCAmountRange (specRedeemedSum exampleResolve ([⟨"", [2], 1000⟩] ++ [⟨"", [3], 5⟩])) ∧
    (RedeemAddressVerified exampleResolve scenarioState
      [⟨"tx1", [1], 500⟩] ([⟨"", [2], 1000⟩] ++ [⟨"", [3], 5⟩])).verified = true :=
  ⟨by decide, by decide, by decide, by decide, by decide,
   redeem_monotone exampleResolve scenarioState [⟨"tx1", [1], 500⟩] [⟨"", [2], 1000⟩]
     ⟨"", [3], 5⟩ (by decide) (by decide) (by decide) (by decide) (by decide)⟩

/-- C25: the built-in dataset is empty, so `LoadStatic` on a validator that is not loaded
returns true, sets `IsLoaded` and leaves the map empty; right afterwards `IsCoinValid` is
true for every transaction id and `RedeemAddressVerified` returns false for every call
with at least one exploited input. -/
theorem builtin_dataset_empty {ops : DoubleOps} (resolve : CScript → Option String)
    (s : State ops) (hs : s.infMapLoaded = false) :
    getExplList = [] ∧
    ∃ s1, LoadStatic s = .returned (true, s1) ∧ IsLoaded s1 = true ∧ s1.infMap = [] ∧
      (∀ t, IsCoinValid s1 t = true) ∧
      (∀ exploited recipients : List RedeemData, exploited ≠ [] →
        (RedeemAddressVerified resolve s1 exploited recipients).verified = false) := by
  refine ⟨rfl, { infMap := [], infMapLoaded := true }, ?_, rfl, rfl, ?_, ?_⟩
  · unfold LoadStatic LoadStaticFrom getExplList
    simp [hs, loadLines]
  · intro t
    simp [IsCoinValid, mapCount, mapFind]
  · intro exploited recipients hne
    cases exploited with
    | nil => exact absurd rfl hne
    | cons e es =>
      unfold RedeemAddressVerified
      by_cases hr : recipients.isEmpty = true
      · simp [hr]
      · simp [hr, exploitedLoop, mapCount, mapFind]

/-- Witness of C25: the validator left not loaded by a lookup on the initial validator,
whose map holds one key with no record; `LoadStatic` clears it. -/
theorem builtin_dataset_empty_witness :
    (GetInfractions (State.initial decimalOps) exampleTxId).2.infMapLoaded = false ∧
    (GetInfractions (State.initial decimalOps) exampleTxId).2.infMap.length = 1 ∧
    ∃ s1, LoadStatic (GetInfractions (State.initial decimalOps) exampleTxId).2
        = .returned (true, s1) ∧ IsLoaded s1 = true ∧ s1.infMap = [] ∧
      (∀ t, IsCoinValid s1 t = true) ∧
      (∀ exploited recipients : List RedeemData, exploited ≠ [] →
        (RedeemAddressVerified exampleResolve s1 exploited recipients).verified = false) :=
  ⟨rfl, by decide,
   (builtin_dataset_empty exampleResolve
     (GetInfractions (State.initial decimalOps) exampleTxId).2 rfl).2⟩

end CoinValidator
